import Mathlib

/-!
Verification development for the simpledb SQL driver.

The development shallowly embeds the driver's statement front end and
translation/execution engine:

* `Lex` — the lexical scanner (`internal/lex/scanner.go`), as a pure
  function from character lists to token/text pairs.
* `Parse` — the recursive-descent parser (`internal/parse/parse.go`),
  as a pure function over the token stream, with the parser's
  panic/recover error signalling rendered as `Except String`.
* `Conn` — the translator/executor (`conn.go`): request construction
  (`newPutDeleteInputs`, `makeSelectExpression`) and the statement
  executors (`insertRow`, `updateRow`, `deleteRow`), with the store's
  responses supplied as explicit parameters.

Unicode character classes (`unicode.IsSpace`, `IsLetter`, `IsDigit`) and
case mapping (`strings.ToLower`, `strings.EqualFold`) are modelled on the
ASCII range plus the Latin-1 whitespace code points, which covers every
statement the driver's dialect accepts in the claims under study.
-/

namespace Lex

/-- Lexical token kinds, from `internal/lex/scanner.go` (`TokenIllegal` .. `TokenPlaceholder`). -/
inductive Token where
  | illegal
  | eof
  | whiteSpace
  | comment
  | ident
  | keyword
  | literal
  | operator
  | placeholder
deriving DecidableEq, Repr

/-- The scanner's keyword set (`keywords` in `scanner.go`). -/
def keywords : List String :=
  ["or", "and", "not", "from", "where", "select", "like", "null", "is",
   "order", "by", "asc", "desc", "in", "between", "intersection", "limit",
   "every", "update", "upsert", "insert", "delete", "create", "drop",
   "table", "values", "set"]

/-- ASCII lower-casing of a string (models `strings.ToLower` on the inputs in scope). -/
def toLowerAscii (s : String) : String :=
  String.mk (s.data.map Char.toLower)

/-- Case-insensitive string equality (models `strings.EqualFold` on the inputs in scope). -/
def eqFold (a b : String) : Bool :=
  toLowerAscii a == toLowerAscii b

/-- `Scanner.isKeyword`: keyword lookup after lower-casing. -/
def isKeyword (s : String) : Bool :=
  keywords.contains (toLowerAscii s)

/-- `isWhitespace` (Go `unicode.IsSpace` restricted to ASCII/Latin-1 space code points). -/
def isWhitespaceChar (c : Char) : Bool :=
  c == ' ' || c == '\t' || c == '\n' || c == '\r' ||
  c == '\x0b' || c == '\x0c' || c.val == 133 || c.val == 160

/-- `isDigit` (Go `unicode.IsDigit` restricted to ASCII digits). -/
def isDigitChar (c : Char) : Bool :=
  c.isDigit

/-- `isStartIdent`: underscore or a letter. -/
def isStartIdentChar (c : Char) : Bool :=
  c == '_' || c.isAlpha

/-- `isIdent`: identifier-continuation characters. -/
def isIdentChar (c : Char) : Bool :=
  isStartIdentChar c || c.isDigit

/-- The scanner's one-character operator set (`operators` constant; braces written as escapes). -/
def operatorChars : List Char :=
  String.data ("%&()*+,-./:;<=>?^|" ++ "\x7b\x7d")

/-- Membership in the operator set (`strings.ContainsRune(operators, ch)`). -/
def isOperatorChar (c : Char) : Bool :=
  operatorChars.contains c

/-- `scanWhitespace`: the maximal run of whitespace characters and the remainder. -/
def takeWhitespace : List Char → List Char × List Char
  | [] => ([], [])
  | c :: cs =>
    if isWhitespaceChar c then
      let (run, rest) := takeWhitespace cs
      (c :: run, rest)
    else ([], c :: cs)

/-- `scanComment`: characters of a line comment up to and including the newline. -/
def takeComment : List Char → List Char × List Char
  | [] => ([], [])
  | c :: cs =>
    if c == '\n' then ([c], cs)
    else
      let (r, rest) := takeComment cs
      (c :: r, rest)

/-- `scanIdentifier`'s collection loop: the maximal run of identifier characters. -/
def takeIdent : List Char → List Char × List Char
  | [] => ([], [])
  | c :: cs =>
    if isIdentChar c then
      let (run, rest) := takeIdent cs
      (c :: run, rest)
    else ([], c :: cs)

/-- `scanNumber`'s collection loop: digits, with at most one decimal point
(the comparison function changes after the first period). -/
def takeNumber (seenDot : Bool) : List Char → List Char × List Char
  | [] => ([], [])
  | c :: cs =>
    if (if seenDot then isDigitChar c else isDigitChar c || c == '.') then
      let (run, rest) := takeNumber (seenDot || c == '.') cs
      (c :: run, rest)
    else ([], c :: cs)

/-- `scanDelimitedIdentifier`: consume up to the closing delimiter, where a doubled
closing delimiter is an escape; end of input yields an illegal token. `acc` holds
the characters consumed so far (the opening delimiter included). -/
def scanDelimited (endCh : Char) : List Char → List Char → Lex.Token × List Char × List Char
  | acc, [] => (Token.illegal, acc, [])
  | acc, c :: cs =>
    if c == endCh then
      match cs with
      | c2 :: cs2 =>
        if c2 == endCh then scanDelimited endCh (acc ++ [c, c2]) cs2
        else (Token.ident, acc ++ [c], c2 :: cs2)
      | [] => (Token.ident, acc ++ [c], [])
    else scanDelimited endCh (acc ++ [c]) cs

/-- `scanQuote`: same consumption discipline as `scanDelimited` but produces a
literal token (used for single-quoted strings, possibly with an n/x prefix). -/
def scanQuoted (endCh : Char) : List Char → List Char → Lex.Token × List Char × List Char
  | acc, [] => (Token.illegal, acc, [])
  | acc, c :: cs =>
    if c == endCh then
      match cs with
      | c2 :: cs2 =>
        if c2 == endCh then scanQuoted endCh (acc ++ [c, c2]) cs2
        else (Token.literal, acc ++ [c], c2 :: cs2)
      | [] => (Token.literal, acc ++ [c], [])
    else scanQuoted endCh (acc ++ [c]) cs

/-- `scanIdentifier`: collect the identifier run and reclassify keywords,
lower-casing a keyword's text. -/
def scanIdentifierTok (startCh : Char) (input : List Char) : Lex.Token × String × List Char :=
  let (run, rest) := takeIdent input
  let lexeme := String.mk (startCh :: run)
  if isKeyword lexeme then (Token.keyword, toLowerAscii lexeme, rest)
  else (Token.ident, lexeme, rest)

/-- `scanNumber`: collect a numeric literal starting at `startCh`. -/
def scanNumberTok (startCh : Char) (input : List Char) : Lex.Token × String × List Char :=
  let (run, rest) := takeNumber (startCh == '.') input
  (Token.literal, String.mk (startCh :: run), rest)

/-- The body of `Scanner.Scan` after the optional whitespace skip: classify the
token starting at the head of the input. -/
def scanAfterWS (input : List Char) : Lex.Token × String × List Char :=
  match input with
  | [] => (Token.eof, "", [])
  | ch :: rest =>
    if isWhitespaceChar ch then
      let (run, rest') := takeWhitespace (ch :: rest)
      (Token.whiteSpace, String.mk run, rest')
    else if ch == '-' then
      match rest with
      | c2 :: rest2 =>
        if c2 == '-' then
          let (r, rest3) := takeComment rest2
          (Token.comment, String.mk ('-' :: '-' :: r), rest3)
        else (Token.operator, "-", c2 :: rest2)
      | [] => (Token.operator, "-", [])
    else if ch == '[' then
      let (tok, text, rest') := scanDelimited ']' ['['] rest
      (tok, String.mk text, rest')
    else if ch == '`' then
      let (tok, text, rest') := scanDelimited '`' ['`'] rest
      (tok, String.mk text, rest')
    else if ch == '"' then
      let (tok, text, rest') := scanDelimited '"' ['"'] rest
      (tok, String.mk text, rest')
    else if ch == '\'' then
      let (tok, text, rest') := scanQuoted '\'' ['\''] rest
      (tok, String.mk text, rest')
    else if ch == '\x7b' then
      let (tok, text, rest') := scanDelimited '\x7d' ['\x7b'] rest
      (tok, String.mk text, rest')
    else if ch == 'N' || ch == 'n' || ch == 'X' || ch == 'x' then
      match rest with
      | c2 :: rest2 =>
        if c2 == '\'' then
          let (tok, text, rest') := scanQuoted '\'' [ch, c2] rest2
          (tok, String.mk text, rest')
        else scanIdentifierTok ch (c2 :: rest2)
      | [] => scanIdentifierTok ch []
    else if isStartIdentChar ch then scanIdentifierTok ch rest
    else if isDigitChar ch then scanNumberTok ch rest
    else if ch == '.' then
      match rest with
      | c2 :: rest2 =>
        if isDigitChar c2 then scanNumberTok '.' (c2 :: rest2)
        else (Token.operator, ".", c2 :: rest2)
      | [] => (Token.operator, ".", [])
    else if ch == '<' then
      match rest with
      | c2 :: rest2 =>
        if c2 == '>' then (Token.operator, "<>", rest2)
        else (Token.operator, "<", c2 :: rest2)
      | [] => (Token.operator, "<", [])
    else if ch == '?' then (Token.placeholder, "?", rest)
    else if isOperatorChar ch then (Token.operator, String.mk [ch], rest)
    else (Token.illegal, String.mk [ch], rest)

/-- `Scanner.Scan`: with `IgnoreWhiteSpace` set, leading whitespace characters
are skipped before classification. -/
def scan (ignoreWS : Bool) (input : List Char) : Lex.Token × String × List Char :=
  scanAfterWS (if ignoreWS then input.dropWhile (fun c => isWhitespaceChar c) else input)

/-- A scanned token: kind and text, as exposed by `Scanner.Token`/`Scanner.Text`. -/
structure Tok where
  kind : Lex.Token
  text : String
deriving DecidableEq, Repr

/-- Scan the whole input into a token list (whitespace tokens preserved;
the parser decides whether to skip them, mirroring the mid-scan
`IgnoreWhiteSpace` toggle). `scan` consumes at least one character from a
non-empty input, so fuel `input.length + 1` always runs to the end. -/
def tokenizeAux : Nat → List Char → List Tok
  | 0, _ => []
  | fuel + 1, input =>
    match scan false input with
    | (Token.eof, _, _) => []
    | (tok, text, rest) => ⟨tok, text⟩ :: tokenizeAux fuel rest

/-- Tokenize a statement's text. -/
def tokenize (s : String) : List Tok :=
  tokenizeAux (s.length + 1) s.data

/-- Modelled from the spec: `lex.Unquote` is referenced by the parser but its
definition is not among the repository's files (only its callers are). Per the
spec (§4.1, §4.3), identifiers are delimited by matching bracket pairs, backticks,
double quotes or braces, and string literals by single quotes, in every case with
doubled-delimiter escaping inside; unquoting strips the delimiters and undoubles
the escapes, and returns undelimited text unchanged. -/
def delimEnd (c : Char) : Option Char :=
  if c == '[' then some ']'
  else if c == '`' then some '`'
  else if c == '"' then some '"'
  else if c == '\x7b' then some '\x7d'
  else if c == '\'' then some '\''
  else none

/-- Undouble escaped closing delimiters inside a delimited text. -/
def undouble (endCh : Char) : List Char → List Char
  | [] => []
  | [c] => [c]
  | c :: c2 :: cs =>
    if c == endCh && c2 == endCh then c :: undouble endCh cs
    else c :: undouble endCh (c2 :: cs)

/-- Modelled from the spec: `lex.Unquote` (see `delimEnd`). -/
def Unquote (s : String) : String :=
  match s.data with
  | [] => s
  | c :: cs =>
    match delimEnd c with
    | none => s
    | some endCh =>
      match cs.getLast? with
      | some lastCh =>
        if lastCh == endCh && cs.length ≥ 1 then
          String.mk (undouble endCh cs.dropLast)
        else s
      | none => s

end Lex

/-- Rendering of a plain string in an error message (models `fmt`'s `%q` verb
for the quote-free ASCII texts that reach it in the claims under study). -/
def goQuote (s : String) : String :=
  "\"" ++ s ++ "\""

namespace Parse

/-- Driver-level value bound to a placeholder (models `driver.Value` for the
types the claims exercise; `float64` and `time.Time` arguments are outside the
settled claims and are omitted). A Go custom string type (`reflect.Kind` string)
is represented by `str` as well. -/
inductive Value where
  | str (s : String)
  | int64 (i : Int)
  | boolean (b : Bool)
  | binary (bs : List Nat)
  | null
deriving DecidableEq, Repr

/-- `parse.Key`: the primary key of the record being inserted/updated/deleted. -/
structure Key where
  Ordinal : Int
  Value : Option String
deriving DecidableEq, Repr

/-- `parse.Column`: a column and the placeholder or literal value associated with it. -/
structure Column where
  ColumnName : String
  Ordinal : Int
  Value : Option String
deriving DecidableEq, Repr

/-- `parse.SelectQuery`. -/
structure SelectQuery where
  ConsistentRead : Bool
  ColumnNames : List String
  TableName : String
  WhereClause : List String
  Key : Option Key
deriving DecidableEq, Repr

/-- `parse.InsertQuery`. -/
structure InsertQuery where
  TableName : String
  Columns : List Column
  Key : Key
deriving DecidableEq, Repr

/-- `parse.UpdateQuery`. The `Upsert` field is Modelled from the spec: `conn.go`
reads `q.Upsert`, but the field's declaration and the parser dispatch that sets
it are not among the repository's parser files provided; per the spec (§3) it is
"true when the statement used the \"upsert\" keyword in place of \"update\"". -/
structure UpdateQuery where
  TableName : String
  Columns : List Column
  Key : Key
  Upsert : Bool
deriving DecidableEq, Repr

/-- `parse.DeleteQuery`. -/
structure DeleteQuery where
  TableName : String
  Key : Key
deriving DecidableEq, Repr

/-- `parse.CreateTableQuery`. -/
structure CreateTableQuery where
  TableName : String
deriving DecidableEq, Repr

/-- `parse.DropTableQuery`. -/
structure DropTableQuery where
  TableName : String
deriving DecidableEq, Repr

/-- `parse.Query`: the tagged union of statement variants. -/
structure Query where
  Select : Option SelectQuery
  Insert : Option InsertQuery
  Update : Option UpdateQuery
  Delete : Option DeleteQuery
  CreateTable : Option CreateTableQuery
  DropTable : Option DropTableQuery
deriving DecidableEq, Repr

/-- The all-empty query record, corresponding to the parser's zero-value `Query`. -/
def emptyQuery : Query :=
  { Select := none, Insert := none, Update := none, Delete := none,
    CreateTable := none, DropTable := none }

/-- `parse.IsID`: whether a (possibly delimited) name is the special item-name column. -/
def IsID (name : String) : Bool :=
  Lex.eqFold (Lex.Unquote name) "id"

/-- `Key.String`: resolve the item name from the literal value or the bound arguments. -/
def Key.string (key : Key) (values : List Parse.Value) : Except String String :=
  match key.Value with
  | some v => Except.ok v
  | none =>
    if key.Ordinal < 0 ∨ key.Ordinal ≥ (values.length : Int) then
      Except.error "not enough args supplied"
    else
      match values[key.Ordinal.toNat]? with
      | some (Value.str s) => Except.ok s
      | some v => Except.error ("invalid type for item name: " ++ goQuote (reprStr v))
      | none => Except.error "not enough args supplied"

/-- `Column.GetValue`: resolve a column's value from the literal or the bound arguments. -/
def Column.GetValue (col : Column) (values : List Parse.Value) : Except String Parse.Value :=
  match col.Value with
  | some v => Except.ok (Value.str v)
  | none =>
    if col.Ordinal < 0 ∨ col.Ordinal ≥ (values.length : Int) then
      Except.error ("internal error: ordinal=" ++ toString col.Ordinal ++
        ", value len=" ++ toString values.length)
    else
      match values[col.Ordinal.toNat]? with
      | some v => Except.ok v
      | none =>
        Except.error ("internal error: ordinal=" ++ toString col.Ordinal ++
          ", value len=" ++ toString values.length)

/-- The parser's visible state: current token, remaining tokens, the scanner's
`IgnoreWhiteSpace` flag, the accumulated raw lexemes, and the placeholder count
(`parser.placeholderIndex`). -/
structure PState where
  cur : Lex.Tok
  rest : List Lex.Tok
  ignoreWS : Bool
  lexemes : List String
  phIndex : Nat
deriving DecidableEq, Repr

/-- The scanner's EOF token (`setToken(TokenEOF, "")`). -/
def eofTok : Lex.Tok :=
  ⟨Lex.Token.eof, ""⟩

/-- `parser.next`'s whitespace collapse: append a single space lexeme unless the
last lexeme already is one (`len(p.lexemes) > 0 && p.lexemes[len-1] != " "`). -/
def appendSpace (lexemes : List String) : List String :=
  match lexemes.getLast? with
  | none => lexemes
  | some l => if l = " " then lexemes else lexemes ++ [" "]

/-- The token-advance loop inside `parser.next`: skip comments always; skip
whitespace silently when `IgnoreWhiteSpace` is set (in the source the scanner
then never yields it), otherwise collapse it into the lexeme list. -/
def nextFrom (ignoreWS : Bool) : List Lex.Tok → List String → Lex.Tok × List Lex.Tok × List String
  | [], lexemes => (eofTok, [], lexemes)
  | t :: ts, lexemes =>
    if t.kind = Lex.Token.comment then nextFrom ignoreWS ts lexemes
    else if t.kind = Lex.Token.whiteSpace then
      if ignoreWS then nextFrom ignoreWS ts lexemes
      else nextFrom ignoreWS ts (appendSpace lexemes)
    else (t, ts, lexemes)

/-- `parser.next`: count a placeholder being left behind, then advance. -/
def next (s : PState) : PState :=
  { cur := (nextFrom s.ignoreWS s.rest s.lexemes).1,
    rest := (nextFrom s.ignoreWS s.rest s.lexemes).2.1,
    ignoreWS := s.ignoreWS,
    lexemes := (nextFrom s.ignoreWS s.rest s.lexemes).2.2,
    phIndex := if s.cur.kind = Lex.Token.placeholder then s.phIndex + 1 else s.phIndex }

/-- `parser.copyText`: append the current token's text to the lexeme list. -/
def copyText (s : PState) : PState :=
  { s with lexemes := s.lexemes ++ [s.cur.text] }

/-- Termination measure for the parser's loops. -/
def measT (s : PState) : Nat :=
  s.rest.length + (if s.cur = eofTok then 0 else 1)

/-- `parser.expect`: the current token's kind must be among `toks`. -/
def expect (s : PState) (toks : List Lex.Token) : Except String Unit :=
  if toks.contains s.cur.kind then Except.ok ()
  else Except.error ("unexpected " ++ goQuote s.cur.text)

/-- `parser.expectText`: the current token's text must match case-insensitively. -/
def expectText (s : PState) (text : String) : Except String Unit :=
  if Lex.eqFold s.cur.text text then Except.ok ()
  else Except.error ("expected " ++ goQuote text ++ ", found " ++ goQuote s.cur.text)

/-- `parser.expectEOF`. -/
def expectEOF (s : PState) : Except String Unit :=
  if s.cur.kind = Lex.Token.eof then Except.ok ()
  else Except.error ("expected end of query, found " ++ goQuote s.cur.text)

/-- `parser.copyRemaining`'s loop, with explicit fuel so that the definition is
structurally recursive (and so kernel-computable); `copyRemaining` below
supplies fuel that always suffices, so the fuel-exhausted branch is dead code. -/
def copyRemainingGo : Nat → PState → List String
  | 0, s => s.lexemes
  | fuel + 1, s =>
    if s.cur.kind = Lex.Token.eof then s.lexemes
    else copyRemainingGo fuel (next (copyText s))

/-- `parser.copyRemaining`: copy every remaining token's text (with `next`'s
comment-dropping and whitespace-collapsing) until EOF, yielding the final
lexeme list. -/
def copyRemaining (s : PState) : List String :=
  copyRemainingGo (measT s + 1) s

/-- The key position of `parseSelectWhereClause`: a literal yields a `Key` with
the unquoted value, a placeholder a `Key` with the current placeholder index. -/
def keyFromTok (s : PState) : Option Key :=
  if s.cur.kind = Lex.Token.literal then
    some { Ordinal := 0, Value := some (Lex.Unquote s.cur.text) }
  else if s.cur.kind = Lex.Token.placeholder then
    some { Ordinal := (s.phIndex : Int), Value := none }
  else none

/-- `parser.parseSelectWhereClause`: clear `IgnoreWhiteSpace`, then attempt to
match exactly `where id = (placeholder|literal)` followed by EOF; any mismatch
falls back to copying the whole remaining tail. Returns the raw-lexeme
`WhereClause` and the structured `Key`. -/
def parseSelectWhereClause (s0 : PState) : List String × Option Key :=
  let s := { s0 with ignoreWS := false }
  if Lex.toLowerAscii s.cur.text ≠ "where" then (copyRemaining s, none)
  else
    let s := next (copyText s)
    if ¬(s.cur.kind = Lex.Token.ident ∧ Lex.Unquote s.cur.text = "id") then
      (copyRemaining s, none)
    else
      let s := next (copyText s)
      if s.cur.text ≠ "=" then (copyRemaining s, none)
      else
        let s := next (copyText s)
        match keyFromTok s with
        | none => (copyRemaining s, none)
        | some key =>
          let s := next (copyText s)
          if s.cur.kind ≠ Lex.Token.eof then (copyRemaining s, none)
          else ([], some key)

/-- `parseSelectColumnList`'s comma loop, with fuel for structural recursion
(`parseSelectColumnListLoop` supplies fuel that always suffices: each iteration
strictly decreases `measT`). -/
def parseSelectColumnListLoopGo : Nat → PState → List String →
    Except String (List String × PState)
  | 0, s, names => Except.ok (names, s)
  | fuel + 1, s, names =>
    if s.cur.text = "," then
      let s1 := next s
      match expect s1 [Lex.Token.ident] with
      | Except.error e => Except.error e
      | Except.ok _ =>
        parseSelectColumnListLoopGo fuel (next s1) (names ++ [Lex.Unquote s1.cur.text])
    else Except.ok (names, s)

/-- `parseSelectColumnList`'s comma loop. -/
def parseSelectColumnListLoop (s : PState) (names : List String) :
    Except String (List String × PState) :=
  parseSelectColumnListLoopGo (measT s + 1) s names

/-- `parser.parseSelectColumnList`. -/
def parseSelectColumnList (s : PState) : Except String (List String × PState) :=
  match expect s [Lex.Token.ident] with
  | Except.error e => Except.error e
  | Except.ok _ => parseSelectColumnListLoop (next s) [Lex.Unquote s.cur.text]

/-- `parser.parseSelectFromClause`. -/
def parseSelectFromClause (s : PState) : Except String (String × PState) :=
  match expectText s "from" with
  | Except.error e => Except.error e
  | Except.ok _ =>
    let s := next s
    match expect s [Lex.Token.ident] with
    | Except.error e => Except.error e
    | Except.ok _ => Except.ok (Lex.Unquote s.cur.text, next s)

/-- The body of `parser.parseSelect` after the optional `consistent` keyword. -/
def parseSelectAfter (consistentRead : Bool) (s : PState) : Except String SelectQuery :=
  let s := next s
  match parseSelectColumnList s with
  | Except.error e => Except.error e
  | Except.ok (columnNames, s) =>
    match parseSelectFromClause s with
    | Except.error e => Except.error e
    | Except.ok (tableName, s) =>
      let (whereClause, key) := parseSelectWhereClause s
      Except.ok { ConsistentRead := consistentRead, ColumnNames := columnNames,
                  TableName := tableName, WhereClause := whereClause, Key := key }

/-- `parser.parseSelect`. -/
def parseSelect (s : PState) : Except String SelectQuery :=
  if s.cur.text = "consistent" then
    let s := next s
    match expectText s "select" with
    | Except.error e => Except.error e
    | Except.ok _ => parseSelectAfter true s
  else parseSelectAfter false s

/-- `parser.parseUpdateColumn`. -/
def parseUpdateColumn (s : PState) : Except String (Column × PState) :=
  match expect s [Lex.Token.ident] with
  | Except.error e => Except.error e
  | Except.ok _ =>
    let columnName := Lex.Unquote s.cur.text
    let s := next s
    match expectText s "=" with
    | Except.error e => Except.error e
    | Except.ok _ =>
      let s := next s
      match expect s [Lex.Token.placeholder, Lex.Token.literal] with
      | Except.error e => Except.error e
      | Except.ok _ =>
        let col : Column :=
          if s.cur.kind = Lex.Token.placeholder then
            { ColumnName := columnName, Ordinal := (s.phIndex : Int), Value := none }
          else
            { ColumnName := columnName, Ordinal := 0, Value := some (Lex.Unquote s.cur.text) }
        Except.ok (col, next s)

/-- `parseUpdateColumns`'s comma loop, with fuel for structural recursion
(`parseUpdateColumnsLoop` supplies fuel that always suffices: each iteration
strictly decreases `measT`, by `parseUpdateColumn_measT_le` and `measT_next_lt`). -/
def parseUpdateColumnsLoopGo : Nat → PState → List Column →
    Except String (List Column × PState)
  | 0, s, cols => Except.ok (cols, s)
  | fuel + 1, s, cols =>
    if s.cur.text = "," then
      let s1 := next s
      match parseUpdateColumn s1 with
      | Except.error e => Except.error e
      | Except.ok (col, s2) => parseUpdateColumnsLoopGo fuel s2 (cols ++ [col])
    else Except.ok (cols, s)

/-- `parseUpdateColumns`'s comma loop. -/
def parseUpdateColumnsLoop (s : PState) (cols : List Column) :
    Except String (List Column × PState) :=
  parseUpdateColumnsLoopGo (measT s + 1) s cols

/-- `parser.parseUpdateColumns`. -/
def parseUpdateColumns (s : PState) : Except String (List Column × PState) :=
  match parseUpdateColumn s with
  | Except.error e => Except.error e
  | Except.ok (col, s) => parseUpdateColumnsLoop s [col]

/-- `parser.parseUpdateWhere`. -/
def parseUpdateWhere (s : PState) : Except String (Key × PState) :=
  match expectText s "where" with
  | Except.error e => Except.error e
  | Except.ok _ =>
    let s := next s
    match expectText s "id" with
    | Except.error e => Except.error e
    | Except.ok _ =>
      let s := next s
      match expectText s "=" with
      | Except.error e => Except.error e
      | Except.ok _ =>
        let s := next s
        match expect s [Lex.Token.placeholder, Lex.Token.literal] with
        | Except.error e => Except.error e
        | Except.ok _ =>
          let key : Key :=
            if s.cur.kind = Lex.Token.placeholder then
              { Ordinal := (s.phIndex : Int), Value := none }
            else
              { Ordinal := 0, Value := some (Lex.Unquote s.cur.text) }
          Except.ok (key, next s)

/-- `parser.parseUpdate`. The `upsert` parameter is Modelled from the spec: the
"upsert" dispatch case and the `Upsert` field it sets are read by `conn.go` but
their parser-side code is not among the repository's files provided; the spec
(§4.3) dispatches `update`/`upsert` to the same grammar, the flag recording
which keyword was used (§3). -/
def parseUpdate (upsert : Bool) (s : PState) : Except String UpdateQuery :=
  let s := next s
  match expect s [Lex.Token.ident] with
  | Except.error e => Except.error e
  | Except.ok _ =>
    let tableName := Lex.Unquote s.cur.text
    let s := next s
    match expectText s "set" with
    | Except.error e => Except.error e
    | Except.ok _ =>
      let s := next s
      match parseUpdateColumns s with
      | Except.error e => Except.error e
      | Except.ok (cols, s) =>
        match parseUpdateWhere s with
        | Except.error e => Except.error e
        | Except.ok (key, s) =>
          match expectEOF s with
          | Except.error e => Except.error e
          | Except.ok _ =>
            Except.ok { TableName := tableName, Columns := cols, Key := key, Upsert := upsert }

/-- `parseInsertColumnList`'s comma loop, with fuel for structural recursion
(`parseInsertColumnListLoop` supplies fuel that always suffices). -/
def parseInsertColumnListLoopGo : Nat → PState → List Column →
    Except String (List Column × PState)
  | 0, s, cols => Except.ok (cols, s)
  | fuel + 1, s, cols =>
    if s.cur.text = "," then
      let s1 := next s
      match expect s1 [Lex.Token.ident] with
      | Except.error e => Except.error e
      | Except.ok _ =>
        parseInsertColumnListLoopGo fuel (next s1)
          (cols ++ [{ ColumnName := Lex.Unquote s1.cur.text, Ordinal := 0, Value := none }])
    else Except.ok (cols, s)

/-- `parseInsertColumnList`'s comma loop. -/
def parseInsertColumnListLoop (s : PState) (cols : List Column) :
    Except String (List Column × PState) :=
  parseInsertColumnListLoopGo (measT s + 1) s cols

/-- `parser.parseInsertColumnList`. -/
def parseInsertColumnList (s : PState) : Except String (List Column × PState) :=
  match expect s [Lex.Token.ident] with
  | Except.error e => Except.error e
  | Except.ok _ =>
    parseInsertColumnListLoop (next s)
      [{ ColumnName := Lex.Unquote s.cur.text, Ordinal := 0, Value := none }]

/-- The comma separator between insert values (`if i > 0 { expectText(","); next }`). -/
def commaStep (first : Bool) (s : PState) : Except String PState :=
  if first then Except.ok s
  else
    match expectText s "," with
    | Except.error e => Except.error e
    | Except.ok _ => Except.ok (next s)

/-- `parseInsertValueList`'s pairing loop: one value (placeholder or literal)
per parsed column, positionally. -/
def parseInsertValuesLoop : List Column → Bool → PState → Except String (List Column × PState)
  | [], _, s => Except.ok ([], s)
  | col :: cols, first, s =>
    match commaStep first s with
    | Except.error e => Except.error e
    | Except.ok s =>
      match expect s [Lex.Token.placeholder, Lex.Token.literal] with
      | Except.error e => Except.error e
      | Except.ok _ =>
        let col' :=
          if s.cur.kind = Lex.Token.placeholder then
            { col with Ordinal := (s.phIndex : Int), Value := none }
          else
            { col with Value := some (Lex.Unquote s.cur.text) }
        match parseInsertValuesLoop cols false (next s) with
        | Except.error e => Except.error e
        | Except.ok (cols', s') => Except.ok (col' :: cols', s')

/-- The id-extraction pass at the end of `parser.parseInsertValueList`: exactly
one column must be the id column; it is removed from the list and becomes the key. -/
def stripIdColumn : List Column → Option Key → Except String (List Column × Key)
  | [], none => Except.error "missing id column in insert statement"
  | [], some key => Except.ok ([], key)
  | col :: cols, acc =>
    if IsID col.ColumnName then
      match acc with
      | some _ => Except.error "duplicate id column in insert statement"
      | none => stripIdColumn cols (some { Ordinal := col.Ordinal, Value := col.Value })
    else
      match stripIdColumn cols acc with
      | Except.error e => Except.error e
      | Except.ok (cols', key) => Except.ok (col :: cols', key)

/-- `parser.parseInsertValueList`: pair values with columns, then strip the id column. -/
def parseInsertValueList (cols : List Column) (s : PState) :
    Except String (List Column × Key × PState) :=
  match parseInsertValuesLoop cols true s with
  | Except.error e => Except.error e
  | Except.ok (cols', s') =>
    match stripIdColumn cols' none with
    | Except.error e => Except.error e
    | Except.ok (cols'', key) => Except.ok (cols'', key, s')

/-- `parser.parseInsert`. -/
def parseInsert (s : PState) : Except String InsertQuery :=
  let s := next s
  let s := if Lex.eqFold s.cur.text "into" then next s else s
  match expect s [Lex.Token.ident] with
  | Except.error e => Except.error e
  | Except.ok _ =>
    let tableName := Lex.Unquote s.cur.text
    let s := next s
    match expectText s "(" with
    | Except.error e => Except.error e
    | Except.ok _ =>
      let s := next s
      match parseInsertColumnList s with
      | Except.error e => Except.error e
      | Except.ok (cols, s) =>
        match expectText s ")" with
        | Except.error e => Except.error e
        | Except.ok _ =>
          let s := next s
          match expectText s "values" with
          | Except.error e => Except.error e
          | Except.ok _ =>
            let s := next s
            match expectText s "(" with
            | Except.error e => Except.error e
            | Except.ok _ =>
              let s := next s
              match parseInsertValueList cols s with
              | Except.error e => Except.error e
              | Except.ok (cols', key, s) =>
                match expectText s ")" with
                | Except.error e => Except.error e
                | Except.ok _ =>
                  let s := next s
                  match expectEOF s with
                  | Except.error e => Except.error e
                  | Except.ok _ =>
                    Except.ok { TableName := tableName, Columns := cols', Key := key }

/-- `parser.parseDeleteWhere`. -/
def parseDeleteWhere (s : PState) : Except String (Key × PState) :=
  parseUpdateWhere s

/-- `parser.parseDelete`. -/
def parseDelete (s : PState) : Except String DeleteQuery :=
  let s := next s
  let s := if Lex.toLowerAscii s.cur.text = "from" then next s else s
  match expect s [Lex.Token.ident] with
  | Except.error e => Except.error e
  | Except.ok _ =>
    let tableName := Lex.Unquote s.cur.text
    let s := next s
    match parseDeleteWhere s with
    | Except.error e => Except.error e
    | Except.ok (key, s) =>
      match expectEOF s with
      | Except.error e => Except.error e
      | Except.ok _ => Except.ok { TableName := tableName, Key := key }

/-- `parser.parseCreateTable`. -/
def parseCreateTable (s : PState) : Except String CreateTableQuery :=
  let s := next s
  match expectText s "table" with
  | Except.error e => Except.error e
  | Except.ok _ =>
    let s := next s
    match expect s [Lex.Token.ident] with
    | Except.error e => Except.error e
    | Except.ok _ =>
      let tableName := Lex.Unquote s.cur.text
      let s := next s
      match expectEOF s with
      | Except.error e => Except.error e
      | Except.ok _ => Except.ok { TableName := tableName }

/-- `parser.parseDropTable`. -/
def parseDropTable (s : PState) : Except String DropTableQuery :=
  let s := next s
  match expectText s "table" with
  | Except.error e => Except.error e
  | Except.ok _ =>
    let s := next s
    match expect s [Lex.Token.ident] with
    | Except.error e => Except.error e
    | Except.ok _ =>
      let tableName := Lex.Unquote s.cur.text
      let s := next s
      match expectEOF s with
      | Except.error e => Except.error e
      | Except.ok _ => Except.ok { TableName := tableName }

/-- The parser's starting state: the scanner ignores whitespace and the first
`next` fetches the first token. -/
def initState (toks : List Lex.Tok) : PState :=
  next { cur := ⟨Lex.Token.illegal, ""⟩, rest := toks, ignoreWS := true,
         lexemes := [], phIndex := 0 }

/-- `parser.parse`'s keyword dispatch over a token stream. The `"upsert"` case
is Modelled from the spec (§4.3, "Dispatch is by the first keyword: ...
`update`/`upsert` ..."); the source file provided dispatches the other six. -/
def parseToks (toks : List Lex.Tok) : Except String Query :=
  let s := initState toks
  let text := Lex.toLowerAscii s.cur.text
  if text = "select" ∨ text = "consistent" then
    match parseSelect s with
    | Except.error e => Except.error e
    | Except.ok q => Except.ok { emptyQuery with Select := some q }
  else if text = "update" then
    match parseUpdate false s with
    | Except.error e => Except.error e
    | Except.ok q => Except.ok { emptyQuery with Update := some q }
  else if text = "upsert" then
    match parseUpdate true s with
    | Except.error e => Except.error e
    | Except.ok q => Except.ok { emptyQuery with Update := some q }
  else if text = "insert" then
    match parseInsert s with
    | Except.error e => Except.error e
    | Except.ok q => Except.ok { emptyQuery with Insert := some q }
  else if text = "delete" then
    match parseDelete s with
    | Except.error e => Except.error e
    | Except.ok q => Except.ok { emptyQuery with Delete := some q }
  else if text = "create" then
    match parseCreateTable s with
    | Except.error e => Except.error e
    | Except.ok q => Except.ok { emptyQuery with CreateTable := some q }
  else if text = "drop" then
    match parseDropTable s with
    | Except.error e => Except.error e
    | Except.ok q => Except.ok { emptyQuery with DropTable := some q }
  else if s.cur.kind = Lex.Token.keyword then
    Except.error ("unexpected keyword " ++ goQuote s.cur.text)
  else
    Except.error ("unrecognized query " ++ goQuote s.cur.text)

/-- `parse.Parse`: scan and parse a statement's text. -/
def ParseQuery (query : String) : Except String Query :=
  parseToks (Lex.tokenize query)

/-- The spec's "entire tail captured as lexemes" (refinement pair for C4,
amended): every token's text in order up to the first EOF-kind token, comments
dropped, runs of whitespace collapsed into single-space lexemes. -/
def rawTailAux : List Lex.Tok → List String → List String
  | [], acc => acc
  | t :: ts, acc =>
    if t.kind = Lex.Token.eof then acc
    else if t.kind = Lex.Token.comment then rawTailAux ts acc
    else if t.kind = Lex.Token.whiteSpace then rawTailAux ts (appendSpace acc)
    else rawTailAux ts (acc ++ [t.text])

/-- The tail capture starting from the current token (which the parser always
copies verbatim) followed by the remaining tokens. -/
def rawTail (cur : Lex.Tok) (rest : List Lex.Tok) (lexemes : List String) : List String :=
  if cur.kind = Lex.Token.eof then lexemes
  else rawTailAux rest (lexemes ++ [cur.text])

/-- The significant tokens of a tail: comments and whitespace dropped, cut at
the first EOF-kind token. -/
def significantToks : List Lex.Tok → List Lex.Tok
  | [] => []
  | t :: ts =>
    if t.kind = Lex.Token.eof then []
    else if t.kind = Lex.Token.comment ∨ t.kind = Lex.Token.whiteSpace then significantToks ts
    else t :: significantToks ts

/-- The spec's single-row fast-path condition (refinement pair for C4): the
tail's significant tokens are exactly `where`, the identifier `id`, `=`, and a
literal or placeholder key, with nothing following; the resulting `Key` carries
the unquoted literal or the current placeholder ordinal. -/
def specKeyTail (cur : Lex.Tok) (rest : List Lex.Tok) (phIndex : Nat) : Option Key :=
  match significantToks (cur :: rest) with
  | [w, idt, eqt, k] =>
    if Lex.toLowerAscii w.text = "where" ∧ idt.kind = Lex.Token.ident ∧
       Lex.Unquote idt.text = "id" ∧ eqt.text = "=" then
      if k.kind = Lex.Token.literal then
        some { Ordinal := 0, Value := some (Lex.Unquote k.text) }
      else if k.kind = Lex.Token.placeholder then
        some { Ordinal := (phIndex : Int), Value := none }
      else none
    else none
  | _ => none

/-- The select query produced from a tail whose whitespace is collapsed. -/
def limitSelectQuery : SelectQuery :=
  { ConsistentRead := false, ColumnNames := ["a"], TableName := "tbl",
    WhereClause := ["limit", " ", "10"], Key := none }

/-- The parsed query record for the whitespace counterexample. -/
def limitQuery : Query :=
  { Select := some limitSelectQuery, Insert := none, Update := none, Delete := none,
    CreateTable := none, DropTable := none }

end Parse

open Parse

/-- SimpleDB error code for a failed `Expected` condition (`conn.go`). -/
def conditionalCheckFailed : String := "ConditionalCheckFailed"

/-- SimpleDB error code for an `Expected` condition naming a value for an
attribute that does not exist (`conn.go`). -/
def attributeDoesNotExist : String := "AttributeDoesNotExist"

/-- The driver connection's configuration (`conn` in `conn.go`; the SDK handle
is replaced by explicit store-response parameters on each operation). -/
structure conn where
  Schema : String
  Synonyms : List (String × String)
deriving DecidableEq, Repr

/-- `conn.getDomainName`: synonym lookup first, then optional schema qualification. -/
def conn.getDomainName (c : conn) (tableName : String) : String :=
  match c.Synonyms.lookup tableName with
  | some dn => dn
  | none => if c.Schema ≠ "" then c.Schema ++ "." ++ tableName else tableName

/-- Double every occurrence of `q` in a character list (models
`strings.Replace(s, q, qq, -1)` for a one-character pattern). -/
def doubleChar (q : Char) : List Char → List Char
  | [] => []
  | c :: cs => if c == q then c :: c :: doubleChar q cs else c :: doubleChar q cs

/-- `quoteIdentifier` (local function in `conn.makeSelectExpression`):
backtick-quote with doubled-backtick escaping. -/
def quoteIdentifier (columnName : String) : String :=
  "`" ++ String.mk (doubleChar '`' columnName.data) ++ "`"

/-- `quoteString` (`conn.go`): single-quote with doubled-quote escaping. -/
def quoteString (s : String) : String :=
  "'" ++ String.mk (doubleChar '\'' s.data) ++ "'"

/-- `getArg` (local function in `conn.makeSelectExpression`): arguments to a
general select must be strings. -/
def getArg (args : List Value) (index : Nat) : Except String String :=
  if index ≥ args.length then Except.error "not enough args for select query"
  else
    match args[index]? with
    | some (Value.str s) => Except.ok s
    | some _ => Except.error "all args to a select query must be strings"
    | none => Except.error "not enough args for select query"

/-- The projection-list loop of `conn.makeSelectExpression`: for every non-id
column, the quoted column name and its quoted type-tag sibling. -/
def selectColumnNamesAux : List String → List String
  | [] => []
  | columnName :: rest =>
    if ¬ Parse.IsID columnName then
      quoteIdentifier columnName :: quoteIdentifier ("sql:" ++ columnName) ::
        selectColumnNamesAux rest
    else selectColumnNamesAux rest

/-- The tail-replay loop of `conn.makeSelectExpression`: `id` and `` `id` ``
become `itemName()`, each `?` consumes the next argument rendered with
`quoteString`, every other lexeme is copied. -/
def replayWhereClause (args : List Value) : List String → Nat → String → Except String String
  | [], _, acc => Except.ok acc
  | lexeme :: rest, argIndex, acc =>
    if lexeme = "id" ∨ lexeme = "`id`" then
      replayWhereClause args rest argIndex (acc ++ "itemName()")
    else if lexeme = "?" then
      match getArg args argIndex with
      | Except.error e => Except.error e
      | Except.ok arg => replayWhereClause args rest (argIndex + 1) (acc ++ quoteString arg)
    else replayWhereClause args rest argIndex (acc ++ lexeme)

/-- `conn.makeSelectExpression`. -/
def conn.makeSelectExpression (c : conn) (q : SelectQuery) (args : List Value) :
    Except String String :=
  let columnNames := quoteIdentifier "sql:id" :: selectColumnNamesAux q.ColumnNames
  replayWhereClause args q.WhereClause 0
    ("select " ++ String.intercalate ", " columnNames ++ " from " ++
     quoteIdentifier (c.getDomainName q.TableName) ++ " ")

/-- `simpledb.UpdateCondition` (optional fields as in the SDK's pointer fields). -/
structure UpdateCondition where
  Exists : Option Bool
  Name : Option String
  Value : Option String
deriving DecidableEq, Repr

/-- `simpledb.ReplaceableAttribute`. -/
structure ReplaceableAttribute where
  Name : String
  Replace : Bool
  Value : String
deriving DecidableEq, Repr

/-- `simpledb.DeletableAttribute`. -/
structure DeletableAttribute where
  Name : String
deriving DecidableEq, Repr

/-- `simpledb.PutAttributesInput`. -/
structure PutAttributesInput where
  DomainName : String
  ItemName : String
  Attributes : List ReplaceableAttribute
  Expected : Option UpdateCondition
deriving DecidableEq, Repr

/-- `simpledb.DeleteAttributesInput`. -/
structure DeleteAttributesInput where
  DomainName : String
  ItemName : String
  Attributes : List DeletableAttribute
  Expected : Option UpdateCondition
deriving DecidableEq, Repr

/-- The store's response to one request: success, or an error carrying the
retrievable error-code string (a Go error without a `Code()` is modelled with
an empty code, which matches no recognized code in `hasCode`). -/
inductive StoreResult where
  | ok
  | err (code : String) (msg : String)
deriving DecidableEq, Repr

/-- `hasCode` (`conn.go`). -/
def StoreResult.hasCode (res : StoreResult) (code : String) : Bool :=
  match res with
  | StoreResult.ok => false
  | StoreResult.err c _ => c == code

/-- Driver-level errors raised by the executors: plain messages
(`errors.New`/binding and parse errors), the duplicate-key error
(`duplicateKeyError` with its `DuplicateKey()` marker), and wrapped store
failures (`errors.Wrap(err, msg).With(kv...)`). -/
inductive DriverError where
  | simple (msg : String)
  | duplicateKey (msg : String)
  | wrapped (msg : String) (kv : List (String × String)) (code : String) (cause : String)
deriving DecidableEq, Repr

/-- `duplicateKeyError.DuplicateKey() == true`; no other error of the driver
implements the marker method, so every other error reports `false`. -/
def DriverError.DuplicateKey : DriverError → Bool
  | DriverError.duplicateKey _ => true
  | _ => false

/-- `typeColumnName` (`conn.go`): the type-tag sibling attribute's name. -/
def typeColumnName (columnName : String) : String :=
  "sql:" ++ columnName

/-- A value attribute with `Replace: true` (`addPut` in `conn.newPutDeleteInputs`). -/
def putAttr (name value : String) : ReplaceableAttribute :=
  { Name := name, Replace := true, Value := value }

/-- A type-tag attribute (`addType` in `conn.newPutDeleteInputs`). -/
def typeAttr (name value : String) : ReplaceableAttribute :=
  { Name := typeColumnName name, Replace := true, Value := value }

/-- Standard base64 alphabet (`base64.StdEncoding`). -/
def base64Table : List Char :=
  String.data "ABCDEFGHIJKLMNOPQRSTUVWXYZabcdefghijklmnopqrstuvwxyz0123456789+/"

/-- One base64 digit. -/
def base64Char (n : Nat) : Char :=
  base64Table.getD (n % 64) 'A'

/-- `base64.StdEncoding.EncodeToString` over bytes (each taken mod 256). -/
def base64Encode : List Nat → List Char
  | [] => []
  | [a] =>
    let a := a % 256
    [base64Char (a / 4), base64Char (a % 4 * 16), '=', '=']
  | [a, b] =>
    let a := a % 256
    let b := b % 256
    [base64Char (a / 4), base64Char (a % 4 * 16 + b / 16), base64Char (b % 16 * 4), '=']
  | a :: b :: d :: rest =>
    let a' := a % 256
    let b' := b % 256
    let d' := d % 256
    base64Char (a' / 4) :: base64Char (a' % 4 * 16 + b' / 16) ::
      base64Char (b' % 16 * 4 + d' / 64) :: base64Char (d' % 64) :: base64Encode rest

/-- The per-column encoding loop of `conn.newPutDeleteInputs`: each resolved
value contributes its type-tag attribute and either a value attribute (non-empty
encodable value) or a delete marker (null or empty string, which the store
cannot hold). -/
def encodeColumns (args : List Value) :
    List Column → Except String (List ReplaceableAttribute × List DeletableAttribute)
  | [] => Except.ok ([], [])
  | col :: cols =>
    match col.GetValue args with
    | Except.error e => Except.error e
    | Except.ok v =>
      let (putAttrs, delAttrs) :=
        match v with
        | Value.null => ([typeAttr col.ColumnName "null"], [(⟨col.ColumnName⟩ : DeletableAttribute)])
        | Value.str val =>
          if val = "" then
            ([typeAttr col.ColumnName "string"], [(⟨col.ColumnName⟩ : DeletableAttribute)])
          else ([typeAttr col.ColumnName "string", putAttr col.ColumnName val], [])
        | Value.int64 i =>
          ([typeAttr col.ColumnName "int64", putAttr col.ColumnName (toString i)], [])
        | Value.boolean b =>
          ([typeAttr col.ColumnName "bool", putAttr col.ColumnName (if b then "true" else "false")], [])
        | Value.binary bs =>
          ([typeAttr col.ColumnName "binary", putAttr col.ColumnName (String.mk (base64Encode bs))], [])
      match encodeColumns args cols with
      | Except.error e => Except.error e
      | Except.ok (ps, ds) => Except.ok (putAttrs ++ ps, delAttrs ++ ds)

/-- `conn.newPutDeleteInputs`: resolve the item name, write the existence-marker
attribute `sql:id` first, then the per-column attributes. -/
def conn.newPutDeleteInputs (c : conn) (tableName : String) (columns : List Column)
    (key : Key) (args : List Value) :
    Except String (PutAttributesInput × DeleteAttributesInput) :=
  match key.string args with
  | Except.error e => Except.error e
  | Except.ok itemName =>
    match encodeColumns args columns with
    | Except.error e => Except.error e
    | Except.ok (putAttrs, delAttrs) =>
      Except.ok
        ({ DomainName := c.getDomainName tableName, ItemName := itemName,
           Attributes := putAttr "sql:id" "string" :: putAttrs, Expected := none },
         { DomainName := c.getDomainName tableName, ItemName := itemName,
           Attributes := delAttrs, Expected := none })

/-- The put request of `conn.insertRow`: the item must not already exist. -/
def conn.insertInputs (c : conn) (q : InsertQuery) (args : List Value) :
    Except String PutAttributesInput :=
  match c.newPutDeleteInputs q.TableName q.Columns q.Key args with
  | Except.error e => Except.error e
  | Except.ok (putInput, _) =>
    Except.ok { putInput with
      Expected := some { Exists := some false, Name := some "sql:id", Value := none } }

/-- `conn.insertRow`, with the store's response to the put request supplied by
the `store` parameter. -/
def conn.insertRow (c : conn) (q : InsertQuery) (args : List Value)
    (store : PutAttributesInput → StoreResult) : Except DriverError Nat :=
  match c.insertInputs q args with
  | Except.error e => Except.error (DriverError.simple e)
  | Except.ok putInput =>
    match store putInput with
    | StoreResult.ok => Except.ok 1
    | StoreResult.err code msg =>
      if code = conditionalCheckFailed then
        Except.error (DriverError.duplicateKey
          ("cannot insert duplicate key table=" ++ goQuote putInput.DomainName ++
           " itemName=" ++ goQuote putInput.ItemName))
      else
        Except.error (DriverError.wrapped "cannot put attributes"
          [("itemName", putInput.ItemName)] code msg)

/-- The existence precondition of a plain (non-upsert) update (`conn.updateRow`). -/
def updateCondition : UpdateCondition :=
  { Exists := some true, Name := some "sql:id", Value := some "string" }

/-- The two requests of `conn.updateRow`: the precondition is attached to both
unless the statement is an upsert. -/
def conn.updateInputs (c : conn) (q : UpdateQuery) (args : List Value) :
    Except String (PutAttributesInput × DeleteAttributesInput) :=
  match c.newPutDeleteInputs q.TableName q.Columns q.Key args with
  | Except.error e => Except.error e
  | Except.ok (putInput, deleteInput) =>
    if q.Upsert then Except.ok (putInput, deleteInput)
    else
      Except.ok ({ putInput with Expected := some updateCondition },
                 { deleteInput with Expected := some updateCondition })

/-- The put goroutine of `conn.updateRow`: dispatched only when the put request
has attributes; an `AttributeDoesNotExist` failure is benign ("the item does
not exist"), any other failure is wrapped; success records that the item was
updated. Returns (the branch's error if any, the `putItemExists` flag). -/
def putBranch (putInput : PutAttributesInput) (putRes : StoreResult) :
    Option DriverError × Bool :=
  if putInput.Attributes.length > 0 then
    match putRes with
    | StoreResult.ok => (none, true)
    | StoreResult.err code msg =>
      if code = attributeDoesNotExist then (none, false)
      else
        (some (DriverError.wrapped "cannot put attributes"
          [("itemName", putInput.ItemName)] code msg), false)
  else (none, false)

/-- The delete goroutine of `conn.updateRow` (see `putBranch`). -/
def deleteBranch (deleteInput : DeleteAttributesInput) (delRes : StoreResult) :
    Option DriverError × Bool :=
  if deleteInput.Attributes.length > 0 then
    match delRes with
    | StoreResult.ok => (none, true)
    | StoreResult.err code msg =>
      if code = attributeDoesNotExist then (none, false)
      else
        (some (DriverError.wrapped "cannot delete attributes"
          [("itemName", deleteInput.ItemName)] code msg), false)
  else (none, false)

/-- The join of `conn.updateRow`'s two concurrent branches. The branches act on
disjoint attribute sets, so their outcomes are independent; `errgroup.Wait`
returns the first error that occurred, which this sequential model renders as
the put branch's error when both fail. The row count is 1 when either flag is set. -/
def updateRowWith (putInput : PutAttributesInput) (deleteInput : DeleteAttributesInput)
    (putRes delRes : StoreResult) : Except DriverError Nat :=
  let pb := putBranch putInput putRes
  let db := deleteBranch deleteInput delRes
  match pb.1 with
  | some e => Except.error e
  | none =>
    match db.1 with
    | some e => Except.error e
    | none => Except.ok (if pb.2 ∨ db.2 then 1 else 0)

/-- `conn.updateRow`, with the store's responses to the put and delete requests
supplied as parameters. -/
def conn.updateRow (c : conn) (q : UpdateQuery) (args : List Value)
    (putRes delRes : StoreResult) : Except DriverError Nat :=
  match c.updateInputs q args with
  | Except.error e => Except.error (DriverError.simple e)
  | Except.ok (putInput, deleteInput) => updateRowWith putInput deleteInput putRes delRes

/-- `conn.deleteRow`: delete the whole item (no attribute list, no condition);
a successful store call reports zero rows affected. -/
def conn.deleteRow (c : conn) (q : DeleteQuery) (args : List Value)
    (store : DeleteAttributesInput → StoreResult) : Except DriverError Nat :=
  match q.Key.string args with
  | Except.error e => Except.error (DriverError.simple e)
  | Except.ok itemName =>
    match store { DomainName := c.getDomainName q.TableName, ItemName := itemName,
                  Attributes := [], Expected := none } with
    | StoreResult.ok => Except.ok 0
    | StoreResult.err code msg =>
      Except.error (DriverError.wrapped "cannot delete attributes"
        [("itemName", itemName)] code msg)

/-- Modelled from the spec: the store's conditional-write semantics for put
requests (§6, §4.4). An unconditional request succeeds; a condition requiring
the existence-marker attribute to exist fails with `AttributeDoesNotExist` when
the item is absent; a condition requiring non-existence fails with
`ConditionalCheckFailed` when the item exists. -/
def storePut (itemExists : Bool) (input : PutAttributesInput) : StoreResult :=
  match input.Expected with
  | none => StoreResult.ok
  | some cond =>
    match cond.Exists with
    | some true =>
      if itemExists then StoreResult.ok
      else StoreResult.err attributeDoesNotExist "attribute does not exist"
    | some false =>
      if itemExists then StoreResult.err conditionalCheckFailed "conditional check failed"
      else StoreResult.ok
    | none => StoreResult.ok

/-- Modelled from the spec: the store's conditional-write semantics for delete
requests (see `storePut`). -/
def storeDelete (itemExists : Bool) (input : DeleteAttributesInput) : StoreResult :=
  match input.Expected with
  | none => StoreResult.ok
  | some cond =>
    match cond.Exists with
    | some true =>
      if itemExists then StoreResult.ok
      else StoreResult.err attributeDoesNotExist "attribute does not exist"
    | some false =>
      if itemExists then StoreResult.err conditionalCheckFailed "conditional check failed"
      else StoreResult.ok
    | none => StoreResult.ok

/-- `conn.updateRow` run against the spec-modelled store with a given prior
item-existence state. -/
def conn.updateRowStore (c : conn) (q : UpdateQuery) (args : List Value)
    (itemExists : Bool) : Except DriverError Nat :=
  match c.updateInputs q args with
  | Except.error e => Except.error (DriverError.simple e)
  | Except.ok (putInput, deleteInput) =>
    updateRowWith putInput deleteInput (storePut itemExists putInput)
      (storeDelete itemExists deleteInput)

/-- The per-lexeme rendering of the tail replay, as a list of fragments: the
exact lexemes `id` and `` `id` `` become `itemName()`, each `?` consumes the
next argument rendered with `quoteString`, every other lexeme is copied. -/
def renderLexemes (args : List Parse.Value) : List String → Nat → Except String (List String)
  | [], _ => Except.ok []
  | lexeme :: rest, argIndex =>
    if lexeme = "id" ∨ lexeme = "`id`" then
      (renderLexemes args rest argIndex).map (fun ls => "itemName()" :: ls)
    else if lexeme = "?" then
      match getArg args argIndex with
      | Except.error e => Except.error e
      | Except.ok arg => (renderLexemes args rest (argIndex + 1)).map
          (fun ls => quoteString arg :: ls)
    else (renderLexemes args rest argIndex).map (fun ls => lexeme :: ls)

/-- The spec's wording of the tail replay for comparison (refinement pair for
C8): rewrite every bare or quoted `id` identifier — i.e. any lexeme that
`parse.IsID` accepts, case-insensitively — to `itemName()`, otherwise as the
code does. -/
def replaySpec (args : List Parse.Value) : List String → Nat → String → Except String String
  | [], _, acc => Except.ok acc
  | lexeme :: rest, argIndex, acc =>
    if Parse.IsID lexeme then
      replaySpec args rest argIndex (acc ++ "itemName()")
    else if lexeme = "?" then
      match getArg args argIndex with
      | Except.error e => Except.error e
      | Except.ok arg => replaySpec args rest (argIndex + 1) (acc ++ quoteString arg)
    else replaySpec args rest argIndex (acc ++ lexeme)

/-- Concatenation of rendered fragments. -/
def joinFragments : List String → String
  | [] => ""
  | s :: rest => s ++ joinFragments rest

/-- The select query parsed from `select a from tbl where ID = ?`: the parser's
key match is case-sensitive, so the tail stays raw. -/
def c8SelectQuery : Parse.SelectQuery :=
  { ConsistentRead := false, ColumnNames := ["a"], TableName := "tbl",
    WhereClause := ["where", " ", "ID", " ", "=", " ", "?"], Key := none }

/-- The full parsed query record for the C8 counterexample. -/
def c8Query : Parse.Query :=
  { Select := some c8SelectQuery, Insert := none, Update := none, Delete := none,
    CreateTable := none, DropTable := none }

/-- A select query used to exhibit quote doubling in the replayed tail. -/
def quoteDemoQuery : Parse.SelectQuery :=
  { ConsistentRead := false, ColumnNames := ["a"], TableName := "tbl",
    WhereClause := ["where", " ", "a", "=", "?"], Key := none }

def selectFiveQuery : SelectQuery :=
  { ConsistentRead := false, ColumnNames := ["a", "b", "c"], TableName := "t",
    WhereClause := ["where", " ", "a", "=", "?", " ", "and", " ", "b", "=", "?", " ",
                    "and", " ", "c", " ", "in", " ", "(", "?", ",", "?", ",", "?", ")"],
    Key := none }

def updateThreeQuery : UpdateQuery :=
  { TableName := "tbl",
    Columns := [{ ColumnName := "a", Ordinal := 0, Value := none },
                { ColumnName := "b", Ordinal := 1, Value := none }],
    Key := { Ordinal := 2, Value := none }, Upsert := false }

def upsertExampleQuery : UpdateQuery :=
  { TableName := "tbl", Columns := [{ ColumnName := "a", Ordinal := 0, Value := none }],
    Key := { Ordinal := 1, Value := none }, Upsert := true }

def updateExampleQuery : UpdateQuery :=
  { TableName := "tbl", Columns := [{ ColumnName := "a", Ordinal := 0, Value := none }],
    Key := { Ordinal := 1, Value := none }, Upsert := false }

def countIdCols : List Column → Nat
  | [] => 0
  | c :: cs => (if IsID c.ColumnName then 1 else 0) + countIdCols cs

def insertExampleQuery : InsertQuery :=
  { TableName := "t",
    Columns := [{ ColumnName := "a", Ordinal := 1, Value := none },
                { ColumnName := "b", Ordinal := 2, Value := none }],
    Key := { Ordinal := 0, Value := none } }

namespace Parse

theorem nextFrom_rest_le (ignoreWS : Bool) :
    ∀ (ts : List Lex.Tok) (lx : List String),
      (nextFrom ignoreWS ts lx).2.1.length ≤ ts.length := by
  intro ts
  induction ts with
  | nil => intro lx; simp [nextFrom]
  | cons t ts ih =>
    intro lx
    simp only [nextFrom]
    split
    · exact le_trans (ih lx) (by simp)
    · split
      · split
        · exact le_trans (ih lx) (by simp)
        · exact le_trans (ih _) (by simp)
      · simp

theorem nextFrom_progress (ignoreWS : Bool) :
    ∀ (ts : List Lex.Tok) (lx : List String),
      (nextFrom ignoreWS ts lx).1 = eofTok ∨
        (nextFrom ignoreWS ts lx).2.1.length < ts.length := by
  intro ts
  induction ts with
  | nil => intro lx; simp [nextFrom]
  | cons t ts ih =>
    intro lx
    simp only [nextFrom]
    split
    · rcases ih lx with h | h
      · exact Or.inl h
      · exact Or.inr (lt_trans h (by simp))
    · split
      · split
        · rcases ih lx with h | h
          · exact Or.inl h
          · exact Or.inr (lt_trans h (by simp))
        · rcases ih (appendSpace lx) with h | h
          · exact Or.inl h
          · exact Or.inr (lt_trans h (by simp))
      · simp

theorem measT_next_le (s : PState) : measT (next s) ≤ measT s := by
  have hle := nextFrom_rest_le s.ignoreWS s.rest s.lexemes
  have hprog := nextFrom_progress s.ignoreWS s.rest s.lexemes
  simp only [measT, next]
  rcases hprog with h | h
  · rw [if_pos h]
    split <;> omega
  · split <;> split <;> omega

theorem measT_next_lt (s : PState) (h : s.cur ≠ eofTok) : measT (next s) < measT s := by
  have hle := nextFrom_rest_le s.ignoreWS s.rest s.lexemes
  have hprog := nextFrom_progress s.ignoreWS s.rest s.lexemes
  simp only [measT, next, if_neg h]
  rcases hprog with h' | h'
  · rw [if_pos h']
    omega
  · split <;> omega

theorem measT_copyText (s : PState) : measT (copyText s) = measT s := rfl

theorem copyText_cur (s : PState) : (copyText s).cur = s.cur := rfl

theorem cur_ne_eofTok_of_text (s : PState) (h : s.cur.text ≠ "") : s.cur ≠ eofTok := by
  intro he
  exact h (by rw [he]; rfl)

theorem cur_ne_eofTok_of_kind (s : PState) (h : s.cur.kind ≠ Lex.Token.eof) : s.cur ≠ eofTok := by
  intro he
  exact h (by rw [he]; rfl)

theorem copyRemainingGo_fuel (fuel1 : Nat) :
    ∀ (fuel2 : Nat) (s : PState), measT s < fuel1 → measT s < fuel2 →
      copyRemainingGo fuel1 s = copyRemainingGo fuel2 s := by
  induction fuel1 with
  | zero => intro fuel2 s h1 _; omega
  | succ fuel1 ih =>
    intro fuel2 s h1 h2
    match fuel2, h2 with
    | fuel2 + 1, h2 =>
      simp only [copyRemainingGo]
      split
      · rfl
      · have hlt : measT (next (copyText s)) < measT s := by
          rw [show measT (next (copyText s)) < measT s ↔
                measT (next (copyText s)) < measT (copyText s) from by rw [measT_copyText]]
          exact measT_next_lt (copyText s)
            (cur_ne_eofTok_of_kind (copyText s) (by rw [copyText_cur]; assumption))
        exact ih _ _ (by omega) (by omega)

/-- The recurrence `copyRemaining` satisfies: the source loop's one-step unfolding. -/
theorem copyRemaining_eq (s : PState) :
    copyRemaining s =
      if s.cur.kind = Lex.Token.eof then s.lexemes
      else copyRemaining (next (copyText s)) := by
  unfold copyRemaining
  rw [show copyRemainingGo (measT s + 1) s = copyRemainingGo (measT s + 1) s from rfl]
  conv_lhs => rw [copyRemainingGo]
  split
  · rfl
  · have hlt : measT (next (copyText s)) < measT s := by
      rw [show measT (next (copyText s)) < measT s ↔
            measT (next (copyText s)) < measT (copyText s) from by rw [measT_copyText]]
      exact measT_next_lt (copyText s)
        (cur_ne_eofTok_of_kind (copyText s) (by rw [copyText_cur]; assumption))
    exact copyRemainingGo_fuel _ _ _ (by omega) (by omega)

theorem parseUpdateColumn_measT_le (s : PState) (col : Column) (s' : PState)
    (h : parseUpdateColumn s = Except.ok (col, s')) : measT s' ≤ measT s := by
  unfold parseUpdateColumn at h
  rcases h1 : expect s [Lex.Token.ident] with e | u
  · rw [h1] at h; cases h
  · rw [h1] at h
    simp only at h
    rcases h2 : expectText (next s) "=" with e | u2
    · rw [h2] at h; cases h
    · rw [h2] at h
      simp only at h
      rcases h3 : expect (next (next s)) [Lex.Token.placeholder, Lex.Token.literal] with e | u3
      · rw [h3] at h; cases h
      · rw [h3] at h
        simp only [Except.ok.injEq, Prod.mk.injEq] at h
        rw [← h.2]
        calc measT (next (next (next s))) ≤ measT (next (next s)) := measT_next_le _
          _ ≤ measT (next s) := measT_next_le _
          _ ≤ measT s := measT_next_le _

theorem nextFrom_cons (ign : Bool) (t : Lex.Tok) (ts : List Lex.Tok) (lx : List String) :
    nextFrom ign (t :: ts) lx =
      if t.kind = Lex.Token.comment then nextFrom ign ts lx
      else if t.kind = Lex.Token.whiteSpace then
        (if ign then nextFrom ign ts lx else nextFrom ign ts (appendSpace lx))
      else (t, ts, lx) := rfl

theorem rawTailAux_cons (t : Lex.Tok) (ts : List Lex.Tok) (acc : List String) :
    rawTailAux (t :: ts) acc =
      if t.kind = Lex.Token.eof then acc
      else if t.kind = Lex.Token.comment then rawTailAux ts acc
      else if t.kind = Lex.Token.whiteSpace then rawTailAux ts (appendSpace acc)
      else rawTailAux ts (acc ++ [t.text]) := rfl

theorem significantToks_cons (t : Lex.Tok) (ts : List Lex.Tok) :
    significantToks (t :: ts) =
      if t.kind = Lex.Token.eof then []
      else if t.kind = Lex.Token.comment ∨ t.kind = Lex.Token.whiteSpace then significantToks ts
      else t :: significantToks ts := rfl

theorem rawTailAux_nextFrom (ts : List Lex.Tok) :
    ∀ acc : List String,
      rawTailAux ts acc =
        rawTail (nextFrom false ts acc).1 (nextFrom false ts acc).2.1
          (nextFrom false ts acc).2.2 := by
  induction ts with
  | nil => intro acc; simp [rawTailAux, nextFrom, rawTail, eofTok]
  | cons t ts ih =>
    intro acc
    rcases t with ⟨k, txt⟩
    rcases k <;>
      simp [rawTailAux_cons, nextFrom_cons, rawTail] <;>
      first
        | exact ih acc
        | exact ih (appendSpace acc)
        | rfl

theorem copyRemaining_rawTail_aux (n : Nat) :
    ∀ s : PState, measT s ≤ n → s.ignoreWS = false →
      copyRemaining s = rawTail s.cur s.rest s.lexemes := by
  induction n with
  | zero =>
    intro s hm hign
    rw [copyRemaining_eq]
    unfold measT at hm
    by_cases he : s.cur.kind = Lex.Token.eof
    · rw [if_pos he]
      unfold rawTail
      rw [if_pos he]
    · exfalso
      have : s.cur ≠ eofTok := cur_ne_eofTok_of_kind s he
      simp [this] at hm
  | succ n ih =>
    intro s hm hign
    rw [copyRemaining_eq]
    by_cases he : s.cur.kind = Lex.Token.eof
    · rw [if_pos he]
      unfold rawTail
      rw [if_pos he]
    · rw [if_neg he]
      have hne : s.cur ≠ eofTok := cur_ne_eofTok_of_kind s he
      have hlt : measT (next (copyText s)) < measT s := by
        rw [show measT (next (copyText s)) < measT s ↔
              measT (next (copyText s)) < measT (copyText s) from by rw [measT_copyText]]
        exact measT_next_lt (copyText s) (cur_ne_eofTok_of_kind (copyText s) he)
      have hign2 : (next (copyText s)).ignoreWS = false := by
        simp [next, copyText, hign]
      rw [ih (next (copyText s)) (by omega) hign2]
      have hnc : (next (copyText s)).cur =
          (nextFrom false s.rest (s.lexemes ++ [s.cur.text])).1 := by
        simp [next, copyText, hign]
      have hnr : (next (copyText s)).rest =
          (nextFrom false s.rest (s.lexemes ++ [s.cur.text])).2.1 := by
        simp [next, copyText, hign]
      have hnl : (next (copyText s)).lexemes =
          (nextFrom false s.rest (s.lexemes ++ [s.cur.text])).2.2 := by
        simp [next, copyText, hign]
      rw [hnc, hnr, hnl, ← rawTailAux_nextFrom]
      unfold rawTail
      rw [if_neg he]

theorem significantToks_nextFrom (ts : List Lex.Tok) :
    ∀ lx : List String,
      significantToks ts =
        if (nextFrom false ts lx).1.kind = Lex.Token.eof then []
        else (nextFrom false ts lx).1 :: significantToks (nextFrom false ts lx).2.1 := by
  induction ts with
  | nil => intro lx; simp [significantToks, nextFrom, eofTok]
  | cons t ts ih =>
    intro lx
    rcases t with ⟨k, txt⟩
    rcases k <;>
      simp [significantToks_cons, nextFrom_cons] <;>
      first
        | exact ih lx
        | exact ih (appendSpace lx)
        | rfl

theorem nextFrom_cur_mem (ignoreWS : Bool) (ts : List Lex.Tok) :
    ∀ lx : List String,
      (nextFrom ignoreWS ts lx).1 = eofTok ∨ (nextFrom ignoreWS ts lx).1 ∈ ts := by
  induction ts with
  | nil => intro lx; simp [nextFrom]
  | cons t ts ih =>
    intro lx
    rcases t with ⟨k, txt⟩
    rcases k <;> rcases ignoreWS with _ | _ <;>
      simp only [nextFrom_cons, reduceCtorEq, if_false, if_true, Bool.false_eq_true,
        if_pos rfl] <;>
      first
        | (rcases ih lx with h | h
           · exact Or.inl h
           · exact Or.inr (List.mem_cons_of_mem _ h))
        | (rcases ih (appendSpace lx) with h | h
           · exact Or.inl h
           · exact Or.inr (List.mem_cons_of_mem _ h))
        | exact Or.inr (List.mem_cons_self _ ts)

theorem nextFrom_rest_sublist (ignoreWS : Bool) (ts : List Lex.Tok) :
    ∀ (lx : List String) (x : Lex.Tok), x ∈ (nextFrom ignoreWS ts lx).2.1 → x ∈ ts := by
  induction ts with
  | nil => intro lx x hx; simp [nextFrom] at hx
  | cons t ts ih =>
    intro lx x hx
    rcases t with ⟨k, txt⟩
    rcases k <;> rcases ignoreWS with _ | _ <;>
      simp only [nextFrom_cons, reduceCtorEq, if_false, if_true, Bool.false_eq_true,
        if_pos rfl] at hx <;>
      first
        | exact List.mem_cons_of_mem _ (ih lx x hx)
        | exact List.mem_cons_of_mem _ (ih (appendSpace lx) x hx)
        | exact List.mem_cons_of_mem _ hx

theorem copyRemaining_rawTail (s : PState) (hig : s.ignoreWS = false) :
    copyRemaining s = rawTail s.cur s.rest s.lexemes :=
  copyRemaining_rawTail_aux (measT s) s le_rfl hig

end Parse

theorem parseUpdate_upsert_flag (upsert : Bool) (s : PState) (q : UpdateQuery)
    (h : Parse.parseUpdate upsert s = Except.ok q) : q.Upsert = upsert := by
  simp only [Parse.parseUpdate] at h
  repeat' split at h
  all_goals try cases h
  all_goals rfl

theorem parseToks_update_dispatch (toks : List Lex.Tok) (q : Query) (uq : UpdateQuery)
    (h : Parse.parseToks toks = Except.ok q) (hu : q.Update = some uq) :
    (uq.Upsert = true ↔ Lex.toLowerAscii (Parse.initState toks).cur.text = "upsert") := by
  simp only [Parse.parseToks] at h
  split at h
  · rcases hps : Parse.parseSelect (Parse.initState toks) with e | sq <;>
      rw [hps] at h <;> cases h
    rw [Parse.emptyQuery] at hu
    simp at hu
  · split at h
    · rename_i hnotsel htext
      rcases hps : Parse.parseUpdate false (Parse.initState toks) with e | uq' <;>
        rw [hps] at h <;> cases h
      simp only [Parse.emptyQuery, Option.some.injEq] at hu
      subst hu
      have hf := parseUpdate_upsert_flag false _ _ hps
      rw [hf, htext]
      simp
    · split at h
      · rename_i hnotsel hnotupd htext
        rcases hps : Parse.parseUpdate true (Parse.initState toks) with e | uq' <;>
          rw [hps] at h <;> cases h
        simp only [Parse.emptyQuery, Option.some.injEq] at hu
        subst hu
        have hf := parseUpdate_upsert_flag true _ _ hps
        rw [hf, htext]
        simp
      · split at h
        · rcases hps : Parse.parseInsert (Parse.initState toks) with e | x <;>
            rw [hps] at h <;> cases h
          rw [Parse.emptyQuery] at hu; simp at hu
        · split at h
          · rcases hps : Parse.parseDelete (Parse.initState toks) with e | x <;>
              rw [hps] at h <;> cases h
            rw [Parse.emptyQuery] at hu; simp at hu
          · split at h
            · rcases hps : Parse.parseCreateTable (Parse.initState toks) with e | x <;>
                rw [hps] at h <;> cases h
              rw [Parse.emptyQuery] at hu; simp at hu
            · split at h
              · rcases hps : Parse.parseDropTable (Parse.initState toks) with e | x <;>
                  rw [hps] at h <;> cases h
                rw [Parse.emptyQuery] at hu; simp at hu
              · split at h <;> cases h

theorem newPutDeleteInputs_shape (c : conn) (tn : String) (cols : List Column)
    (key : Key) (args : List Value) (pi : PutAttributesInput) (di : DeleteAttributesInput)
    (h : c.newPutDeleteInputs tn cols key args = Except.ok (pi, di)) :
    pi.Expected = none ∧ di.Expected = none ∧
      ∃ rest, pi.Attributes = putAttr "sql:id" "string" :: rest := by
  unfold conn.newPutDeleteInputs at h
  repeat' split at h
  all_goals try cases h
  exact ⟨rfl, rfl, _, rfl⟩

theorem updateInputs_shape (c : conn) (q : UpdateQuery) (args : List Value)
    (pi : PutAttributesInput) (di : DeleteAttributesInput)
    (h : c.updateInputs q args = Except.ok (pi, di)) :
    (∃ rest, pi.Attributes = putAttr "sql:id" "string" :: rest) ∧
    pi.Expected = (if q.Upsert then none else some updateCondition) ∧
    di.Expected = (if q.Upsert then none else some updateCondition) := by
  unfold conn.updateInputs at h
  rcases hn : c.newPutDeleteInputs q.TableName q.Columns q.Key args with e | ⟨pi0, di0⟩ <;>
    rw [hn] at h
  · cases h
  obtain ⟨hpe0, hde0, rest, hattr0⟩ := newPutDeleteInputs_shape c _ _ _ _ _ _ hn
  simp only at h
  split at h
  · rename_i hup
    cases h
    exact ⟨⟨rest, hattr0⟩, by simp [hup, hpe0], by simp [hup, hde0]⟩
  · rename_i hup
    cases h
    refine ⟨⟨rest, ?_⟩, ?_, ?_⟩
    · simpa using hattr0
    · simp [hup]
    · simp [hup]

theorem upsert_rowcount_one (c : conn) (q : UpdateQuery) (args : List Value)
    (pi : PutAttributesInput) (di : DeleteAttributesInput)
    (hup : q.Upsert = true) (hin : c.updateInputs q args = Except.ok (pi, di)) :
    c.updateRowStore q args false = Except.ok 1 := by
  obtain ⟨⟨rest, hattr⟩, hpe, hde⟩ := updateInputs_shape c q args pi di hin
  rw [hup] at hpe hde
  simp at hpe hde
  have hsp : storePut false pi = StoreResult.ok := by unfold storePut; rw [hpe]
  have hsd : storeDelete false di = StoreResult.ok := by unfold storeDelete; rw [hde]
  unfold conn.updateRowStore
  simp only [hin]
  rw [hsp, hsd]
  unfold updateRowWith putBranch deleteBranch
  rw [hattr]
  by_cases hd : 0 < di.Attributes.length <;> simp [hd]

theorem countIdCols_eq_zero (cols : List Column) :
    countIdCols cols = 0 ↔ ∀ col ∈ cols, IsID col.ColumnName = false := by
  induction cols with
  | nil => simp [countIdCols]
  | cons c cs ih =>
    unfold countIdCols
    by_cases hid : IsID c.ColumnName
    · rw [if_pos hid]
      simp [hid]
    · rw [if_neg hid]
      simp only [Nat.zero_add, ih]
      constructor
      · intro h col hmem
        rcases List.mem_cons.1 hmem with rfl | hmem
        · simpa using hid
        · exact h col hmem
      · intro h col hmem
        exact h col (List.mem_cons_of_mem c hmem)

theorem stripIdColumn_no_id (cols : List Column) :
    ∀ (acc : Option Key) (cols2 : List Column) (key : Key),
      stripIdColumn cols acc = Except.ok (cols2, key) →
      ∀ col ∈ cols2, IsID col.ColumnName = false := by
  induction cols with
  | nil =>
    intro acc cols2 key h col hmem
    rcases acc with _ | k
    · cases h
    · simp only [stripIdColumn, Except.ok.injEq, Prod.mk.injEq] at h
      rw [← h.1] at hmem
      cases hmem
  | cons c cs ih =>
    intro acc cols2 key h col hmem
    unfold stripIdColumn at h
    split at h
    · rcases acc with _ | k
      · exact ih _ _ _ h col hmem
      · cases h
    · rename_i hid
      rcases h2 : stripIdColumn cs acc with e | ⟨cols3, key3⟩ <;> rw [h2] at h
      · cases h
      · simp only [Except.ok.injEq, Prod.mk.injEq] at h
        rw [← h.1] at hmem
        rcases List.mem_cons.1 hmem with rfl | hmem
        · simpa using hid
        · exact ih _ _ _ h2 col hmem

theorem stripIdColumn_none_found (cols : List Column)
    (h0 : countIdCols cols = 0) :
    stripIdColumn cols none = Except.error "missing id column in insert statement" ∧
    ∀ k, stripIdColumn cols (some k) = Except.ok (cols, k) := by
  induction cols with
  | nil => exact ⟨rfl, fun k => rfl⟩
  | cons c cs ih =>
    unfold countIdCols at h0
    by_cases hid : IsID c.ColumnName
    · rw [if_pos hid] at h0
      omega
    · rw [if_neg hid] at h0
      obtain ⟨ihn, ihs⟩ := ih (by omega)
      constructor
      · unfold stripIdColumn
        rw [if_neg hid, ihn]
      · intro k
        unfold stripIdColumn
        rw [if_neg hid, ihs k]

theorem stripIdColumn_some_dup (cols : List Column)
    (h1 : 1 ≤ countIdCols cols) :
    ∀ k, stripIdColumn cols (some k) =
      Except.error "duplicate id column in insert statement" := by
  induction cols with
  | nil => simp [countIdCols] at h1
  | cons c cs ih =>
    intro k
    unfold countIdCols at h1
    by_cases hid : IsID c.ColumnName
    · unfold stripIdColumn
      rw [if_pos hid]
    · rw [if_neg hid] at h1
      unfold stripIdColumn
      rw [if_neg hid, ih (by omega) k]

theorem stripIdColumn_dup (cols : List Column)
    (h2 : 2 ≤ countIdCols cols) :
    stripIdColumn cols none = Except.error "duplicate id column in insert statement" := by
  induction cols with
  | nil => simp [countIdCols] at h2
  | cons c cs ih =>
    unfold countIdCols at h2
    by_cases hid : IsID c.ColumnName
    · rw [if_pos hid] at h2
      unfold stripIdColumn
      rw [if_pos hid]
      exact stripIdColumn_some_dup cs (by omega) _
    · rw [if_neg hid] at h2
      unfold stripIdColumn
      rw [if_neg hid, ih (by omega)]

theorem stripIdColumn_unique (cols : List Column) (col : Column)
    (h1 : countIdCols cols = 1)
    (hf : cols.find? (fun col => IsID col.ColumnName) = some col) :
    stripIdColumn cols none =
      Except.ok (cols.filter (fun col => ! IsID col.ColumnName),
        { Ordinal := col.Ordinal, Value := col.Value }) := by
  induction cols with
  | nil => simp [countIdCols] at h1
  | cons c cs ih =>
    unfold countIdCols at h1
    by_cases hid : IsID c.ColumnName
    · rw [if_pos hid] at h1
      have h0 : countIdCols cs = 0 := by omega
      rw [List.find?_cons_of_pos _ (by simpa using hid)] at hf
      cases hf
      have hfe : cs.filter (fun col => ! IsID col.ColumnName) = cs := by
        apply List.filter_eq_self.2
        intro a ha
        have := (countIdCols_eq_zero cs).1 h0 a ha
        simpa using this
      unfold stripIdColumn
      rw [if_pos hid, (stripIdColumn_none_found cs h0).2]
      rw [List.filter_cons_of_neg (by simpa using hid), hfe]
    · rw [if_neg hid] at h1
      rw [List.find?_cons_of_neg _ (by simpa using hid)] at hf
      unfold stripIdColumn
      rw [if_neg hid, ih (by omega) hf]
      rw [List.filter_cons_of_pos (by simpa using hid)]

theorem parseInsertValueList_shape (cols : List Column) (s : PState)
    (out : List Column × Key × PState)
    (h : Parse.parseInsertValueList cols s = Except.ok out) :
    ∃ cols2, stripIdColumn cols2 none = Except.ok (out.1, out.2.1) := by
  unfold Parse.parseInsertValueList at h
  repeat' split at h
  all_goals try cases h
  exact ⟨_, by assumption⟩

theorem parseInsert_shape (s : PState) (q : InsertQuery)
    (h : Parse.parseInsert s = Except.ok q) :
    ∃ cols, stripIdColumn cols none = Except.ok (q.Columns, q.Key) := by
  simp only [Parse.parseInsert] at h
  repeat' split at h
  all_goals try cases h
  all_goals exact parseInsertValueList_shape _ _ _ (by assumption)

theorem stripIdColumn_none_found' (cols : List Column) (h0 : countIdCols cols = 0) :
    stripIdColumn cols none = Except.error "missing id column in insert statement" :=
  (stripIdColumn_none_found cols h0).1

theorem replay_render (args : List Parse.Value) :
    ∀ (lexemes : List String) (i : Nat) (acc : String),
      replayWhereClause args lexemes i acc =
        (renderLexemes args lexemes i).map (fun ls => acc ++ joinFragments ls) := by
  intro lexemes
  induction lexemes with
  | nil =>
    intro i acc
    simp [replayWhereClause, renderLexemes, joinFragments, Except.map]
  | cons lexeme rest ih =>
    intro i acc
    by_cases hid : lexeme = "id" ∨ lexeme = "`id`"
    · simp only [replayWhereClause, renderLexemes, if_pos hid, ih]
      rcases renderLexemes args rest i with e | ls <;>
        simp [Except.map, joinFragments, String.append_assoc]
    · by_cases hq : lexeme = "?"
      · simp only [replayWhereClause, renderLexemes, if_neg hid, if_pos hq]
        rcases hget : getArg args i with e | arg
        · rfl
        · simp only [ih]
          rcases renderLexemes args rest (i + 1) with e | ls <;>
            simp [Except.map, joinFragments, String.append_assoc]
      · simp only [replayWhereClause, renderLexemes, if_neg hid, if_neg hq, ih]
        rcases renderLexemes args rest i with e | ls <;>
          simp [Except.map, joinFragments, String.append_assoc]

theorem getArg_nonstring (args : List Parse.Value) (i : Nat) (v : Parse.Value)
    (hv : args[i]? = some v) (hns : ∀ s, v ≠ Parse.Value.str s) :
    getArg args i = Except.error "all args to a select query must be strings" := by
  unfold getArg
  have hlt : i < args.length := by
    by_contra hge
    rw [List.getElem?_eq_none (by omega)] at hv
    cases hv
  rw [if_neg (by omega), hv]
  rcases v with s | j | b | bs | _
  · exact absurd rfl (hns s)
  all_goals rfl

/-- C1: an update statement written with the `upsert` keyword parses with the
`Upsert` flag true and a plain `update` with the flag false; the executor omits
the `sql:id`-exists precondition from both the put and the delete request
exactly when the flag is true (so an upsert of a non-existent item reports row
count 1), while a plain update attaches that precondition to both requests. -/
theorem upsert_flag_and_precondition :
    (Parse.ParseQuery "upsert tbl set a = ? where id = ?" =
      Except.ok { Parse.emptyQuery with Update := some upsertExampleQuery }) ∧
    (Parse.ParseQuery "update tbl set a = ? where id = ?" =
      Except.ok { Parse.emptyQuery with Update := some updateExampleQuery }) ∧
    (∀ (toks : List Lex.Tok) (q : Query) (uq : UpdateQuery),
      Parse.parseToks toks = Except.ok q → q.Update = some uq →
      (uq.Upsert = true ↔ Lex.toLowerAscii (Parse.initState toks).cur.text = "upsert")) ∧
    (∀ (c : conn) (q : UpdateQuery) (args : List Value)
       (pi : PutAttributesInput) (di : DeleteAttributesInput),
      c.updateInputs q args = Except.ok (pi, di) →
      (q.Upsert = true → pi.Expected = none ∧ di.Expected = none) ∧
      (q.Upsert = false →
        pi.Expected = some { Exists := some true, Name := some "sql:id", Value := some "string" } ∧
        di.Expected = some { Exists := some true, Name := some "sql:id", Value := some "string" })) ∧
    (∀ (c : conn) (q : UpdateQuery) (args : List Value)
       (pi : PutAttributesInput) (di : DeleteAttributesInput),
      q.Upsert = true → c.updateInputs q args = Except.ok (pi, di) →
      c.updateRowStore q args false = Except.ok 1) := by
  refine ⟨rfl, rfl, parseToks_update_dispatch, ?_, upsert_rowcount_one⟩
  intro c q args pi di hin
  obtain ⟨_, hpe, hde⟩ := updateInputs_shape c q args pi di hin
  constructor
  · intro hup
    rw [hup] at hpe hde
    simp at hpe hde
    exact ⟨hpe, hde⟩
  · intro hup
    rw [hup] at hpe hde
    simp [updateCondition] at hpe hde
    exact ⟨hpe, hde⟩

theorem upsert_flag_and_precondition_witness :
    conn.updateRowStore { Schema := "", Synonyms := [] } upsertExampleQuery
      [Value.str "v", Value.str "ID2"] false = Except.ok 1 := by
  exact upsert_flag_and_precondition.2.2.2.2
    { Schema := "", Synonyms := [] } upsertExampleQuery [Value.str "v", Value.str "ID2"]
    { DomainName := "tbl", ItemName := "ID2",
      Attributes := [putAttr "sql:id" "string", typeAttr "a" "string", putAttr "a" "v"],
      Expected := none }
    { DomainName := "tbl", ItemName := "ID2", Attributes := [], Expected := none }
    rfl rfl

/-- C2: for an executed update, a precondition ("does not exist") failure from
the put branch or the delete branch is benign: the row count is 1 when either
branch succeeded and 0 when both failed their precondition, and any other store
failure from either branch is propagated as a wrapped error. -/
theorem update_rowcount_and_errors (putInput : PutAttributesInput)
    (deleteInput : DeleteAttributesInput) (putRes delRes : StoreResult) :
    ((putInput.Attributes.length > 0 →
        putRes = StoreResult.ok ∨ putRes.hasCode attributeDoesNotExist = true) →
     (deleteInput.Attributes.length > 0 →
        delRes = StoreResult.ok ∨ delRes.hasCode attributeDoesNotExist = true) →
      updateRowWith putInput deleteInput putRes delRes =
        Except.ok (if (putInput.Attributes.length > 0 ∧ putRes = StoreResult.ok) ∨
                      (deleteInput.Attributes.length > 0 ∧ delRes = StoreResult.ok)
                   then 1 else 0)) ∧
    (∀ code msg, putInput.Attributes.length > 0 → putRes = StoreResult.err code msg →
      code ≠ attributeDoesNotExist →
      updateRowWith putInput deleteInput putRes delRes =
        Except.error (DriverError.wrapped "cannot put attributes"
          [("itemName", putInput.ItemName)] code msg)) ∧
    (∀ code msg,
      (putInput.Attributes.length > 0 →
        putRes = StoreResult.ok ∨ putRes.hasCode attributeDoesNotExist = true) →
      deleteInput.Attributes.length > 0 → delRes = StoreResult.err code msg →
      code ≠ attributeDoesNotExist →
      updateRowWith putInput deleteInput putRes delRes =
        Except.error (DriverError.wrapped "cannot delete attributes"
          [("itemName", deleteInput.ItemName)] code msg)) := by
  refine ⟨?_, ?_, ?_⟩
  · intro hp hd
    unfold updateRowWith putBranch deleteBranch
    by_cases hpl : putInput.Attributes.length > 0 <;>
      by_cases hdl : deleteInput.Attributes.length > 0 <;>
        rcases putRes with _ | ⟨pc, pm⟩ <;> rcases delRes with _ | ⟨dc, dm⟩ <;>
          simp_all [StoreResult.hasCode]
  · intro code msg hpl hpr hne
    unfold updateRowWith putBranch deleteBranch
    subst hpr
    simp_all
  · intro code msg hp hdl hdr hne
    unfold updateRowWith putBranch deleteBranch
    subst hdr
    by_cases hpl : putInput.Attributes.length > 0
    · rcases hp hpl with hpo | hpc
      · subst hpo; simp_all
      · rcases putRes with _ | ⟨pc, pm⟩
        · simp_all
        · simp only [StoreResult.hasCode, beq_iff_eq] at hpc
          subst hpc
          simp_all
    · simp_all

theorem update_rowcount_and_errors_witness :
    updateRowWith
      { DomainName := "tbl", ItemName := "ID1",
        Attributes := [putAttr "sql:id" "string"], Expected := some updateCondition }
      { DomainName := "tbl", ItemName := "ID1", Attributes := [], Expected := some updateCondition }
      StoreResult.ok StoreResult.ok = Except.ok 1 := by
  have h := (update_rowcount_and_errors
      { DomainName := "tbl", ItemName := "ID1",
        Attributes := [putAttr "sql:id" "string"], Expected := some updateCondition }
      { DomainName := "tbl", ItemName := "ID1", Attributes := [], Expected := some updateCondition }
      StoreResult.ok StoreResult.ok).1 (fun _ => Or.inl rfl) (fun _ => Or.inl rfl)
  simpa using h

/-- C3: the insert put request carries the precondition that `sql:id` must not
already exist; a conditional-check failure surfaces as a duplicate-key error
carrying the table and item identity with the `DuplicateKey` marker true, a
success reports exactly one row, and any other failure is wrapped with the item
identity and has the marker false. -/
theorem insert_duplicate_key_handling (c : conn) (q : InsertQuery) (args : List Value)
    (store : PutAttributesInput → StoreResult) (putInput : PutAttributesInput)
    (hin : c.insertInputs q args = Except.ok putInput) :
    putInput.Expected = some { Exists := some false, Name := some "sql:id", Value := none } ∧
    (store putInput = StoreResult.ok → c.insertRow q args store = Except.ok 1) ∧
    (∀ msg, store putInput = StoreResult.err conditionalCheckFailed msg →
      c.insertRow q args store =
        Except.error (DriverError.duplicateKey
          ("cannot insert duplicate key table=" ++ goQuote putInput.DomainName ++
           " itemName=" ++ goQuote putInput.ItemName)) ∧
      (∀ e, c.insertRow q args store = Except.error e → e.DuplicateKey = true)) ∧
    (∀ code msg, code ≠ conditionalCheckFailed →
      store putInput = StoreResult.err code msg →
      c.insertRow q args store =
        Except.error (DriverError.wrapped "cannot put attributes"
          [("itemName", putInput.ItemName)] code msg) ∧
      (∀ e, c.insertRow q args store = Except.error e → e.DuplicateKey = false)) := by
  refine ⟨?_, ?_, ?_, ?_⟩
  · unfold conn.insertInputs at hin
    rcases h1 : c.newPutDeleteInputs q.TableName q.Columns q.Key args with e | ⟨pi, di⟩
    · rw [h1] at hin; cases hin
    · rw [h1] at hin
      simp only [Except.ok.injEq] at hin
      rw [← hin]
  · intro hs
    unfold conn.insertRow
    simp only [hin, hs]
  · intro msg hs
    constructor
    · unfold conn.insertRow
      simp [hin, hs]
    · intro e he
      unfold conn.insertRow at he
      simp only [hin, hs, eq_self_iff_true, if_true, Except.error.injEq] at he
      rw [← he]
      rfl
  · intro code msg hne hs
    constructor
    · unfold conn.insertRow
      simp only [hin, hs, if_neg hne]
    · intro e he
      unfold conn.insertRow at he
      simp only [hin, hs, if_neg hne, Except.error.injEq] at he
      rw [← he]
      rfl

theorem insert_duplicate_key_handling_witness :
    (({ Schema := "", Synonyms := [] } : conn).insertInputs
        { TableName := "tbl", Columns := [], Key := { Ordinal := 0, Value := none } }
        [Value.str "ID1"] =
      Except.ok { DomainName := "tbl", ItemName := "ID1",
                  Attributes := [putAttr "sql:id" "string"],
                  Expected := some { Exists := some false, Name := some "sql:id", Value := none } }) ∧
    (({ Schema := "", Synonyms := [] } : conn).insertRow
        { TableName := "tbl", Columns := [], Key := { Ordinal := 0, Value := none } }
        [Value.str "ID1"]
        (fun _ => StoreResult.err conditionalCheckFailed "x") =
      Except.error (DriverError.duplicateKey
        "cannot insert duplicate key table=\"tbl\" itemName=\"ID1\"")) := by
  constructor
  · rfl
  · have h := insert_duplicate_key_handling ({ Schema := "", Synonyms := [] } : conn)
      { TableName := "tbl", Columns := [], Key := { Ordinal := 0, Value := none } }
      [Value.str "ID1"]
      (fun _ => StoreResult.err conditionalCheckFailed "x")
      { DomainName := "tbl", ItemName := "ID1",
        Attributes := [putAttr "sql:id" "string"],
        Expected := some { Exists := some false, Name := some "sql:id", Value := none } }
      rfl
    exact (h.2.2.1 "x" rfl).1

/-- C4 (amended): parsing a select tail matches exactly
`where id = (placeholder|literal)` with nothing following — on success the
structured `Key` is returned with an empty lexeme list, and on any mismatch the
whole tail including the matched prefix is captured as lexemes with the `Key`
absent, the two forms being mutually exclusive by construction. The capture is
not verbatim: comments are dropped and every whitespace run collapses to a
single-space lexeme (see the counterexample). -/
theorem select_tail_dual_capture (cur : Lex.Tok) (rest : List Lex.Tok) (n : Nat) (ign : Bool)
    (hcur : cur.kind ≠ Lex.Token.whiteSpace ∧ cur.kind ≠ Lex.Token.comment)
    (hph : ∀ t ∈ cur :: rest, t.kind = Lex.Token.placeholder → t.text = "?")
    (heof : ∀ t ∈ cur :: rest, t.kind = Lex.Token.eof → t.text = "") :
    parseSelectWhereClause ⟨cur, rest, ign, [], n⟩ =
      match specKeyTail cur rest n with
      | some key => ([], some key)
      | none => (rawTail cur rest [], none) := by
  simp only [parseSelectWhereClause]
  by_cases h1 : Lex.toLowerAscii cur.text = "where"
  case neg =>
    rw [if_pos (by simpa using h1)]
    rw [copyRemaining_rawTail _ rfl]
    have hspec : specKeyTail cur rest n = none := by
      unfold specKeyTail
      rw [significantToks_cons]
      by_cases he : cur.kind = Lex.Token.eof
      · rw [if_pos he]
      · rw [if_neg he, if_neg (by rintro (h | h); exact hcur.2 h; exact hcur.1 h)]
        rcases significantToks rest with _ | ⟨a, _ | ⟨b, _ | ⟨c, _ | ⟨d, tl⟩⟩⟩⟩ <;>
          simp [h1]
    rw [hspec]
  case pos =>
    have hcne : cur.kind ≠ Lex.Token.eof := by
      intro he
      have ht := heof cur (List.mem_cons_self _ _) he
      rw [ht] at h1
      exact absurd h1 (by decide)
    have hcurph : cur.kind ≠ Lex.Token.placeholder := by
      intro hp
      have ht := hph cur (List.mem_cons_self _ _) hp
      rw [ht] at h1
      exact absurd h1 (by decide)
    rcases hnf1 : nextFrom false rest [cur.text] with ⟨c1, r1, l1⟩
    have hs1 : next (copyText (⟨cur, rest, false, [], n⟩ : PState)) = ⟨c1, r1, false, l1, n⟩ := by
      simp [next, copyText, hnf1, hcurph]
    have hchain1 : rawTail cur rest [] = rawTail c1 r1 l1 := by
      have h := rawTailAux_nextFrom rest [cur.text]
      rw [hnf1] at h
      unfold rawTail
      rw [if_neg hcne]
      exact h
    have hsig0 : significantToks (cur :: rest) = cur :: significantToks rest := by
      rw [significantToks_cons, if_neg hcne,
        if_neg (by rintro (h | h); exact hcur.2 h; exact hcur.1 h)]
    have hsig1 : significantToks rest =
        if c1.kind = Lex.Token.eof then [] else c1 :: significantToks r1 := by
      have h := significantToks_nextFrom rest [cur.text]
      rw [hnf1] at h
      exact h
    have hc1mem : c1 = eofTok ∨ c1 ∈ rest := by
      have h := nextFrom_cur_mem false rest [cur.text]
      rw [hnf1] at h
      exact h
    have hr1sub : ∀ x ∈ r1, x ∈ rest := by
      intro x hx
      exact nextFrom_rest_sublist false rest [cur.text] x (by rw [hnf1]; exact hx)
    rw [if_neg (not_not_intro h1), hs1]
    by_cases h2 : c1.kind = Lex.Token.ident ∧ Lex.Unquote c1.text = "id"
    case neg =>
      rw [if_pos (by simpa using h2)]
      rw [copyRemaining_rawTail _ rfl]
      have hspec : specKeyTail cur rest n = none := by
        unfold specKeyTail
        rw [hsig0, hsig1]
        by_cases he1 : c1.kind = Lex.Token.eof
        · rw [if_pos he1]
        · rw [if_neg he1]
          rcases significantToks r1 with _ | ⟨a, _ | ⟨b, _ | ⟨c, L⟩⟩⟩ <;>
            first
              | rfl
              | exact if_neg (by rintro ⟨hA, hB, hC, hD⟩; exact h2 ⟨hB, hC⟩)
      rw [hspec, hchain1]
    case pos =>
      have hc1ne : c1.kind ≠ Lex.Token.eof := by rw [h2.1]; decide
      have hc1ph : c1.kind ≠ Lex.Token.placeholder := by rw [h2.1]; decide
      rw [if_neg (not_not_intro h2)]
      rcases hnf2 : nextFrom false r1 (l1 ++ [c1.text]) with ⟨c2, r2, l2⟩
      have hs2 : next (copyText (⟨c1, r1, false, l1, n⟩ : PState)) = ⟨c2, r2, false, l2, n⟩ := by
        simp [next, copyText, hnf2, hc1ph]
      have hchain2 : rawTail c1 r1 l1 = rawTail c2 r2 l2 := by
        have h := rawTailAux_nextFrom r1 (l1 ++ [c1.text])
        rw [hnf2] at h
        unfold rawTail
        rw [if_neg hc1ne]
        exact h
      have hsig2 : significantToks r1 =
          if c2.kind = Lex.Token.eof then [] else c2 :: significantToks r2 := by
        have h := significantToks_nextFrom r1 (l1 ++ [c1.text])
        rw [hnf2] at h
        exact h
      have hc2mem : c2 = eofTok ∨ c2 ∈ r1 := by
        have h := nextFrom_cur_mem false r1 (l1 ++ [c1.text])
        rw [hnf2] at h
        exact h
      have hr2sub : ∀ x ∈ r2, x ∈ r1 := by
        intro x hx
        exact nextFrom_rest_sublist false r1 (l1 ++ [c1.text]) x (by rw [hnf2]; exact hx)
      have hph2 : c2.kind = Lex.Token.placeholder → c2.text = "?" := by
        rcases hc2mem with h | h
        · intro hk; rw [h] at hk; exact absurd hk (by decide)
        · exact fun hk => hph c2 (List.mem_cons_of_mem _ (hr1sub _ h)) hk
      have heof2 : c2.kind = Lex.Token.eof → c2.text = "" := by
        rcases hc2mem with h | h
        · intro _; subst h; rfl
        · exact fun hk => heof c2 (List.mem_cons_of_mem _ (hr1sub _ h)) hk
      rw [hs2]
      by_cases h3 : c2.text = "="
      case neg =>
        rw [if_pos (by simpa using h3)]
        rw [copyRemaining_rawTail _ rfl]
        have hspec : specKeyTail cur rest n = none := by
          unfold specKeyTail
          rw [hsig0, hsig1, if_neg hc1ne, hsig2]
          by_cases he2 : c2.kind = Lex.Token.eof
          · rw [if_pos he2]
          · rw [if_neg he2]
            rcases significantToks r2 with _ | ⟨a, _ | ⟨b, L⟩⟩ <;>
              first
                | rfl
                | exact if_neg (by rintro ⟨hA, hB, hC, hD⟩; exact h3 hD)
        rw [hspec, hchain1, hchain2]
      case pos =>
        have hc2ne : c2.kind ≠ Lex.Token.eof := by
          intro he
          rw [heof2 he] at h3
          exact absurd h3 (by decide)
        have hc2ph : c2.kind ≠ Lex.Token.placeholder := by
          intro hp
          rw [hph2 hp] at h3
          exact absurd h3 (by decide)
        rw [if_neg (not_not_intro h3)]
        rcases hnf3 : nextFrom false r2 (l2 ++ [c2.text]) with ⟨c3, r3, l3⟩
        have hs3 : next (copyText (⟨c2, r2, false, l2, n⟩ : PState)) = ⟨c3, r3, false, l3, n⟩ := by
          simp [next, copyText, hnf3, hc2ph]
        have hchain3 : rawTail c2 r2 l2 = rawTail c3 r3 l3 := by
          have h := rawTailAux_nextFrom r2 (l2 ++ [c2.text])
          rw [hnf3] at h
          unfold rawTail
          rw [if_neg hc2ne]
          exact h
        have hsig3 : significantToks r2 =
            if c3.kind = Lex.Token.eof then [] else c3 :: significantToks r3 := by
          have h := significantToks_nextFrom r2 (l2 ++ [c2.text])
          rw [hnf3] at h
          exact h
        rw [hs3]
        by_cases hlit : c3.kind = Lex.Token.literal
        case pos =>
          have hc3ne : c3.kind ≠ Lex.Token.eof := by rw [hlit]; decide
          have hc3ph : c3.kind ≠ Lex.Token.placeholder := by rw [hlit]; decide
          have hk : keyFromTok (⟨c3, r3, false, l3, n⟩ : PState) =
              some { Ordinal := 0, Value := some (Lex.Unquote c3.text) } := by
            simp [keyFromTok, hlit]
          simp only [hk]
          rcases hnf4 : nextFrom false r3 (l3 ++ [c3.text]) with ⟨c4, r4, l4⟩
          have hs4 : next (copyText (⟨c3, r3, false, l3, n⟩ : PState)) = ⟨c4, r4, false, l4, n⟩ := by
            simp [next, copyText, hnf4, hc3ph]
          have hchain4 : rawTail c3 r3 l3 = rawTail c4 r4 l4 := by
            have h := rawTailAux_nextFrom r3 (l3 ++ [c3.text])
            rw [hnf4] at h
            unfold rawTail
            rw [if_neg hc3ne]
            exact h
          have hsig4 : significantToks r3 =
              if c4.kind = Lex.Token.eof then [] else c4 :: significantToks r4 := by
            have h := significantToks_nextFrom r3 (l3 ++ [c3.text])
            rw [hnf4] at h
            exact h
          rw [hs4]
          by_cases h5 : c4.kind = Lex.Token.eof
          case pos =>
            rw [if_neg (not_not_intro h5)]
            have hspec : specKeyTail cur rest n =
                some { Ordinal := 0, Value := some (Lex.Unquote c3.text) } := by
              unfold specKeyTail
              rw [hsig0, hsig1, if_neg hc1ne, hsig2, if_neg hc2ne, hsig3, if_neg hc3ne,
                hsig4, if_pos h5]
              have hred : (if Lex.toLowerAscii cur.text = "where" ∧ c1.kind = Lex.Token.ident ∧
                      Lex.Unquote c1.text = "id" ∧ c2.text = "=" then
                    if c3.kind = Lex.Token.literal then
                      some ({ Ordinal := 0, Value := some (Lex.Unquote c3.text) } : Key)
                    else if c3.kind = Lex.Token.placeholder then
                      some ({ Ordinal := (n : Int), Value := none } : Key)
                    else none
                  else none) =
                  some ({ Ordinal := 0, Value := some (Lex.Unquote c3.text) } : Key) := by
                rw [if_pos ⟨h1, h2.1, h2.2, h3⟩, if_pos hlit]
              exact hred
            rw [hspec]
          case neg =>
            rw [if_pos (by simpa using h5)]
            rw [copyRemaining_rawTail _ rfl]
            have hspec : specKeyTail cur rest n = none := by
              unfold specKeyTail
              rw [hsig0, hsig1, if_neg hc1ne, hsig2, if_neg hc2ne, hsig3, if_neg hc3ne,
                hsig4, if_neg h5]
            rw [hspec, hchain1, hchain2, hchain3, hchain4]
        case neg =>
          by_cases hph3 : c3.kind = Lex.Token.placeholder
          case pos =>
            have hc3ne : c3.kind ≠ Lex.Token.eof := by rw [hph3]; decide
            have hk : keyFromTok (⟨c3, r3, false, l3, n⟩ : PState) =
                some { Ordinal := (n : Int), Value := none } := by
              simp [keyFromTok, hlit, hph3]
            simp only [hk]
            rcases hnf4 : nextFrom false r3 (l3 ++ [c3.text]) with ⟨c4, r4, l4⟩
            have hs4 : next (copyText (⟨c3, r3, false, l3, n⟩ : PState)) =
                ⟨c4, r4, false, l4, n + 1⟩ := by
              simp [next, copyText, hnf4, hph3]
            have hchain4 : rawTail c3 r3 l3 = rawTail c4 r4 l4 := by
              have h := rawTailAux_nextFrom r3 (l3 ++ [c3.text])
              rw [hnf4] at h
              unfold rawTail
              rw [if_neg hc3ne]
              exact h
            have hsig4 : significantToks r3 =
                if c4.kind = Lex.Token.eof then [] else c4 :: significantToks r4 := by
              have h := significantToks_nextFrom r3 (l3 ++ [c3.text])
              rw [hnf4] at h
              exact h
            rw [hs4]
            by_cases h5 : c4.kind = Lex.Token.eof
            case pos =>
              rw [if_neg (not_not_intro h5)]
              have hspec : specKeyTail cur rest n =
                  some { Ordinal := (n : Int), Value := none } := by
                unfold specKeyTail
                rw [hsig0, hsig1, if_neg hc1ne, hsig2, if_neg hc2ne, hsig3, if_neg hc3ne,
                  hsig4, if_pos h5]
                have hred : (if Lex.toLowerAscii cur.text = "where" ∧ c1.kind = Lex.Token.ident ∧
                        Lex.Unquote c1.text = "id" ∧ c2.text = "=" then
                      if c3.kind = Lex.Token.literal then
                        some ({ Ordinal := 0, Value := some (Lex.Unquote c3.text) } : Key)
                      else if c3.kind = Lex.Token.placeholder then
                        some ({ Ordinal := (n : Int), Value := none } : Key)
                      else none
                    else none) =
                    some ({ Ordinal := (n : Int), Value := none } : Key) := by
                  rw [if_pos ⟨h1, h2.1, h2.2, h3⟩, if_neg hlit, if_pos hph3]
                exact hred
              rw [hspec]
            case neg =>
              rw [if_pos (by simpa using h5)]
              rw [copyRemaining_rawTail _ rfl]
              have hspec : specKeyTail cur rest n = none := by
                unfold specKeyTail
                rw [hsig0, hsig1, if_neg hc1ne, hsig2, if_neg hc2ne, hsig3, if_neg hc3ne,
                  hsig4, if_neg h5]
              rw [hspec, hchain1, hchain2, hchain3, hchain4]
          case neg =>
            have hk : keyFromTok (⟨c3, r3, false, l3, n⟩ : PState) = none := by
              simp [keyFromTok, hlit, hph3]
            simp only [hk]
            rw [copyRemaining_rawTail _ rfl]
            have hspec : specKeyTail cur rest n = none := by
              unfold specKeyTail
              rw [hsig0, hsig1, if_neg hc1ne, hsig2, if_neg hc2ne, hsig3]
              by_cases he3 : c3.kind = Lex.Token.eof
              · rw [if_pos he3]
              · rw [if_neg he3]
                rcases significantToks r3 with _ | ⟨a, L⟩
                · have hred : (if Lex.toLowerAscii cur.text = "where" ∧
                        c1.kind = Lex.Token.ident ∧
                        Lex.Unquote c1.text = "id" ∧ c2.text = "=" then
                      if c3.kind = Lex.Token.literal then
                        some ({ Ordinal := 0, Value := some (Lex.Unquote c3.text) } : Key)
                      else if c3.kind = Lex.Token.placeholder then
                        some ({ Ordinal := (n : Int), Value := none } : Key)
                      else none
                    else none) = (none : Option Key) := by
                    rw [if_pos ⟨h1, h2.1, h2.2, h3⟩, if_neg hlit, if_neg hph3]
                  exact hred
                · rfl
            rw [hspec, hchain1, hchain2, hchain3]

theorem select_tail_dual_capture_witness :
    parseSelectWhereClause ⟨⟨Lex.Token.keyword, "where"⟩,
        [⟨Lex.Token.whiteSpace, " "⟩, ⟨Lex.Token.ident, "id"⟩, ⟨Lex.Token.whiteSpace, " "⟩,
         ⟨Lex.Token.operator, "="⟩, ⟨Lex.Token.whiteSpace, " "⟩, ⟨Lex.Token.placeholder, "?"⟩],
        true, [], 0⟩ =
      ([], some { Ordinal := 0, Value := none }) := by
  rw [select_tail_dual_capture _ _ _ _ (by decide) (by decide) (by decide)]
  rfl

/-- C4 counterexample to "original whitespace preserved": the two spaces in
`limit  10` come back as the single-space lexeme, so the joined tail differs
from the original text. -/
theorem select_tail_whitespace_counterexample :
    ParseQuery "select a from tbl limit  10" = Except.ok limitQuery ∧
    String.join limitSelectQuery.WhereClause ≠ "limit  10" :=
  ⟨rfl, by decide⟩

/-- C5: a successfully parsed insert statement never carries the id column in
its column list — the unique id entry is extracted into the key; an insert
without an id column fails with "missing id column in insert statement" and one
with a repeated id column fails with "duplicate id column in insert statement". -/
theorem insert_id_column_extraction :
    (∀ (s : PState) (q : InsertQuery), Parse.parseInsert s = Except.ok q →
      ∀ col ∈ q.Columns, IsID col.ColumnName = false) ∧
    (∀ cols : List Column, countIdCols cols = 0 →
      stripIdColumn cols none = Except.error "missing id column in insert statement") ∧
    (∀ cols : List Column, 2 ≤ countIdCols cols →
      stripIdColumn cols none = Except.error "duplicate id column in insert statement") ∧
    (∀ (cols : List Column) (col : Column), countIdCols cols = 1 →
      cols.find? (fun col => IsID col.ColumnName) = some col →
      stripIdColumn cols none =
        Except.ok (cols.filter (fun col => ! IsID col.ColumnName),
          { Ordinal := col.Ordinal, Value := col.Value })) ∧
    (Parse.ParseQuery "insert into t(id,a,b) values(?,?,?)" =
      Except.ok { Parse.emptyQuery with Insert := some insertExampleQuery }) ∧
    (Parse.ParseQuery "insert into t(a,b) values(?,?)" =
      Except.error "missing id column in insert statement") ∧
    (Parse.ParseQuery "insert into t(id,a,id) values(?,?,?)" =
      Except.error "duplicate id column in insert statement") := by
  refine ⟨?_, stripIdColumn_none_found', stripIdColumn_dup, stripIdColumn_unique, rfl, rfl, rfl⟩
  intro s q h col hmem
  obtain ⟨cols, hstrip⟩ := parseInsert_shape s q h
  exact stripIdColumn_no_id cols none q.Columns q.Key hstrip col hmem

theorem insert_id_column_extraction_witness :
    stripIdColumn
        [({ ColumnName := "id", Ordinal := 0, Value := none } : Column),
         { ColumnName := "a", Ordinal := 1, Value := none }] none =
      Except.ok ([({ ColumnName := "a", Ordinal := 1, Value := none } : Column)],
        { Ordinal := 0, Value := none }) ∧
    stripIdColumn [({ ColumnName := "a", Ordinal := 0, Value := none } : Column)] none =
      Except.error "missing id column in insert statement" :=
  ⟨(insert_id_column_extraction.2.2.2.1
      [({ ColumnName := "id", Ordinal := 0, Value := none } : Column),
       { ColumnName := "a", Ordinal := 1, Value := none }]
      { ColumnName := "id", Ordinal := 0, Value := none } rfl rfl).trans rfl,
   insert_id_column_extraction.2.1
      [({ ColumnName := "a", Ordinal := 0, Value := none } : Column)] rfl⟩

/-- C6: placeholder ordinals are assigned zero-based in left-to-right source
order and shared across the statement: the five placeholders of
`select a,b,c from t where a=? and b=? and c in (?,?,?)` bind arguments 0..4 in
order, binding only three arguments is the binding error "not enough args for
select query", and in an update the column and key ordinals are disjoint indices
into the same argument vector. -/
theorem placeholder_ordinal_assignment :
    (Parse.ParseQuery "select a,b,c from t where a=? and b=? and c in (?,?,?)" =
      Except.ok { Parse.emptyQuery with Select := some selectFiveQuery }) ∧
    (conn.makeSelectExpression { Schema := "", Synonyms := [] } selectFiveQuery
        [Value.str "A0", Value.str "A1", Value.str "A2", Value.str "A3", Value.str "A4"] =
      Except.ok ("select `sql:id`, `a`, `sql:a`, `b`, `sql:b`, `c`, `sql:c` from `t` " ++
        "where a='A0' and b='A1' and c in ('A2','A3','A4')")) ∧
    (conn.makeSelectExpression { Schema := "", Synonyms := [] } selectFiveQuery
        [Value.str "A0", Value.str "A1", Value.str "A2"] =
      Except.error "not enough args for select query") ∧
    (Parse.ParseQuery "update tbl set a=?, b = ? where id = ?" =
      Except.ok { Parse.emptyQuery with Update := some updateThreeQuery }) := by
  refine ⟨rfl, ?_, rfl, rfl⟩
  rfl

/-- C7 (amended): with fewer arguments than the highest ordinal used, binding
resolves to an error rather than a panic or out-of-bounds index: key resolution
yields "not enough args supplied", placeholder substitution in a general select
yields "not enough args for select query", and column value resolution yields
the error "internal error: ordinal=.., value len=.." (not a "not enough args"
message — see the counterexample). -/
theorem binding_error_not_panic :
    (∀ (key : Key) (args : List Value), key.Value = none →
      (args.length : Int) ≤ key.Ordinal →
      key.string args = Except.error "not enough args supplied") ∧
    (∀ (args : List Value) (index : Nat), args.length ≤ index →
      getArg args index = Except.error "not enough args for select query") ∧
    (∀ (col : Column) (args : List Value), col.Value = none →
      (args.length : Int) ≤ col.Ordinal →
      col.GetValue args = Except.error ("internal error: ordinal=" ++ toString col.Ordinal ++
        ", value len=" ++ toString args.length)) := by
  refine ⟨?_, ?_, ?_⟩
  · intro key args hv hord
    unfold Parse.Key.string
    simp only [hv]
    split
    · rfl
    · rename_i hcond
      exact absurd (Or.inr hord) hcond
  · intro args index hlen
    unfold getArg
    split
    · rfl
    · rename_i hcond
      omega
  · intro col args hv hord
    unfold Parse.Column.GetValue
    simp only [hv]
    split
    · rfl
    · rename_i hcond
      exact absurd (Or.inr hord) hcond

theorem binding_error_not_panic_witness :
    (Key.string { Ordinal := 2, Value := none } [Value.str "a"] =
      Except.error "not enough args supplied") ∧
    (getArg [] 0 = Except.error "not enough args for select query") ∧
    (Column.GetValue { ColumnName := "a", Ordinal := 1, Value := none } [] =
      Except.error "internal error: ordinal=1, value len=0") :=
  ⟨binding_error_not_panic.1 { Ordinal := 2, Value := none } [Value.str "a"] rfl (by decide),
   binding_error_not_panic.2.1 [] 0 (by decide),
   binding_error_not_panic.2.2 { ColumnName := "a", Ordinal := 1, Value := none } [] rfl (by decide)⟩

/-- C7 counterexample to the claim that all three binding paths produce a
"not enough args..." message: `Column.GetValue` with one-element ordinal 1 and
no supplied values errors with "internal error: ordinal=1, value len=0", which
does not start with "not enough args". -/
theorem column_getvalue_message_counterexample :
    Column.GetValue { ColumnName := "a", Ordinal := 1, Value := none } [] =
      Except.error "internal error: ordinal=1, value len=0" ∧
    "internal error: ordinal=1, value len=0".data.take "not enough args".data.length ≠
      "not enough args".data := by
  constructor
  · rfl
  · decide

/-- C8 (amended): the select expression replays the captured tail lexeme by
lexeme — each placeholder `?` consumes the next argument rendered with
`quoteString` (single quotes, embedded quotes doubled), a non-string argument
is the binding error "all args to a select query must be strings", and only the
exact lexemes `id` and `` `id` `` (not every bare or quoted id identifier) are
rewritten to `itemName()`. -/
theorem select_replay_lexeme_by_lexeme :
    (∀ (args : List Parse.Value) (lexemes : List String) (i : Nat) (acc : String),
      replayWhereClause args lexemes i acc =
        (renderLexemes args lexemes i).map (fun ls => acc ++ joinFragments ls)) ∧
    (∀ (args : List Parse.Value) (i : Nat) (v : Parse.Value), args[i]? = some v →
      (∀ s, v ≠ Parse.Value.str s) →
      getArg args i = Except.error "all args to a select query must be strings") ∧
    conn.makeSelectExpression ⟨"", []⟩ quoteDemoQuery [Parse.Value.str "O'Brien"] =
      Except.ok "select `sql:id`, `a`, `sql:a` from `tbl` where a='O''Brien'" :=
  ⟨fun args lexemes i acc => replay_render args lexemes i acc,
   fun args i v hv hns => getArg_nonstring args i v hv hns, rfl⟩

theorem select_replay_lexeme_by_lexeme_witness :
    replayWhereClause [Parse.Value.str "x"] ["id", " ", "=", " ", "?"] 0 "" =
      Except.ok "itemName() = 'x'" ∧
    getArg [Parse.Value.int64 3] 0 =
      Except.error "all args to a select query must be strings" := by
  constructor
  · rw [select_replay_lexeme_by_lexeme.1]
    rfl
  · exact select_replay_lexeme_by_lexeme.2.1 [Parse.Value.int64 3] 0 (Parse.Value.int64 3) rfl
      (fun s h => by cases h)

/-- C8 counterexample to "rewriting every bare or quoted id identifier": the
tail lexeme `ID` is an id identifier (`parse.IsID` accepts it), yet the replay
copies it verbatim where the spec's reading would produce `itemName()`. -/
theorem select_replay_id_rewrite_counterexample :
    Parse.ParseQuery "select a from tbl where ID = ?" = Except.ok c8Query ∧
    conn.makeSelectExpression ⟨"", []⟩ c8SelectQuery [Parse.Value.str "x"] =
      Except.ok "select `sql:id`, `a`, `sql:a` from `tbl` where ID = 'x'" ∧
    replaySpec [Parse.Value.str "x"] c8SelectQuery.WhereClause 0 "" =
      Except.ok "where itemName() = 'x'" ∧
    replayWhereClause [Parse.Value.str "x"] c8SelectQuery.WhereClause 0 "" =
      Except.ok "where ID = 'x'" ∧
    Parse.IsID "ID" = true ∧
    ("where ID = 'x'" : String) ≠ "where itemName() = 'x'" :=
  ⟨rfl, rfl, rfl, rfl, rfl, by decide⟩

/-- C10: a delete statement whose store delete completes without error reports
a rows-affected count of exactly 0, whether or not the item existed. -/
theorem delete_rowcount_zero (c : conn) (q : DeleteQuery) (args : List Value)
    (store : DeleteAttributesInput → StoreResult) (itemName : String)
    (hkey : q.Key.string args = Except.ok itemName)
    (hstore : ∀ input, store input = StoreResult.ok) :
    c.deleteRow q args store = Except.ok 0 := by
  unfold conn.deleteRow
  simp only [hkey, hstore]

theorem delete_rowcount_zero_witness :
    (({ Schema := "", Synonyms := [] } : conn).deleteRow
      { TableName := "tbl", Key := { Ordinal := 0, Value := none } }
      [Value.str "ID1"] (fun _ => StoreResult.ok)) = Except.ok 0 :=
  delete_rowcount_zero _ _ _ _ "ID1" rfl (fun _ => rfl)
